import Mathlib

/-!
# Structured-merge field manager: `Update` and `Apply`

A shallow embedding of
`staging/src/k8s.io/apiserver/pkg/endpoints/handlers/fieldmanager/structuredmerge.go`,
followed by the manager-name functions of package `handlers` that `create_test.go`
exercises.

Modelling conventions.

* A `runtime.Object` is a pointer.  Objects live in a `Heap`; the Go variables
  `liveObj`, `newObj`, `patchObj`, ... are references (`Ref`) into it.  The hooks
  that return nothing in Go (`PrepareForUpdate`, `Default`) act by overwriting the
  cell their first argument points to.
* `ConvertToVersion` may hand back the very pointer it was given (as
  `fakeObjectConvertor` in `patch_test.go` does) or a newly allocated object; it
  never writes to its input.
* Typed values (`*typed.TypedValue`) and ownership maps (`fieldpath.ManagedFields`)
  are immutable values of the abstract types `TV` and `MF`.
* Every Go function returns the triple `(runtime.Object, Managed, error)`; it is
  kept as a triple of options (`Result`), `none` standing for `nil`.
* An error value handed over by a capability has the abstract type `E`; inside a
  `GoError` it is marked `ext`, so that it stays apart from the errors this file builds.
* `World.calls` is a log of the calls made to the consumed capabilities, in order.
  The diagnostic `fmt.Printf` lines of the source write to standard output only
  and are left out.
-/

namespace FieldManager

/-! ## Data model -/

/-- Go type `schema.GroupVersion`. -/
structure GroupVersion where
  Group : String
  Version : String
deriving DecidableEq, Repr

/-- Go type `schema.GroupVersionKind`. -/
structure GroupVersionKind where
  Group : String
  Version : String
  Kind : String
deriving DecidableEq, Repr

/-- Go method `GroupVersionKind.GroupVersion()`. -/
def GroupVersionKind.GroupVersion (gvk : GroupVersionKind) : FieldManager.GroupVersion :=
  ⟨gvk.Group, gvk.Version⟩

/-- One persisted ownership entry (`metav1.ManagedFieldsEntry`), reduced to the
attributes that identify it. -/
structure ManagedFieldsEntry where
  Manager : String
  Operation : String
  APIVersion : String
deriving DecidableEq, Repr

/-- The part of `metav1.ObjectMeta` read by the field manager.  `ManagedFields` is a
Go slice: `none` is the nil slice, `some []` an empty non-nil slice. -/
structure ObjectMeta where
  ManagedFields : Option (List ManagedFieldsEntry)
  FieldManager : String
deriving DecidableEq, Repr

/-- The pointee of a `runtime.Object`.  `objectMeta = none` is an object whose type
has no metadata accessor; `content` is everything else (spec, status, ...). -/
structure Object (C : Type) where
  gvk : GroupVersionKind
  objectMeta : Option ObjectMeta
  content : C

/-- A pointer to an object. -/
abbrev Ref := Nat

/-- The object store: `cell r` is what `r` points to, `next` the first unused
reference. -/
structure Heap (C : Type) where
  next : Ref
  cell : Ref → Object C

variable {C TV MF T E : Type}

/-- Dereference. -/
def Heap.read (h : Heap C) (r : Ref) : Object C := h.cell r

/-- In-place overwrite of the object `r` points to. -/
def Heap.write (h : Heap C) (r : Ref) (o : Object C) : Heap C :=
  { h with cell := fun r' => if r' = r then o else h.cell r' }

/-- Allocation of a new object. -/
def Heap.alloc (h : Heap C) (o : Object C) : Ref × Heap C :=
  (h.next, { next := h.next + 1, cell := fun r' => if r' = h.next then o else h.cell r' })

/-! ## Consumed capabilities -/

/-- Outcome of a successful `ConvertToVersion`: the `in` pointer itself, or a new
object. -/
inductive Converted (C : Type) where
  | same : Converted C
  | copy (out : Object C) : Converted C

/-- Go interface `runtime.ObjectConvertor` (the method used here). -/
structure ObjectConvertor (C E : Type) where
  ConvertToVersion : Object C → GroupVersion → Except E (Converted C)

/-- Go interface `TypeConverter`. -/
structure TypeConverter (C TV E : Type) where
  ObjectToTyped : Object C → Except E TV
  TypedToObject : TV → Except E (Object C)

/-- Go interface `runtime.ObjectDefaulter`: `Default(in)` rewrites `in` in place; the
function gives the new pointee. -/
structure ObjectDefaulter (C : Type) where
  Default : Object C → Object C

/-- The merge engine `merge.Updater`: both operations return
`(*typed.TypedValue, fieldpath.ManagedFields, error)`. -/
structure Updater (TV MF E : Type) where
  Update : TV → TV → String → MF → String → Except E (Option TV × MF)
  Apply : TV → TV → String → MF → String → Bool → Except E (Option TV × MF)

/-- Go struct `structuredMergeManager`. -/
structure structuredMergeManager (C TV MF E : Type) where
  typeConverter : TypeConverter C TV E
  objectConverter : ObjectConvertor C E
  objectDefaulter : ObjectDefaulter C
  groupVersion : GroupVersion
  hubVersion : GroupVersion
  updater : Updater TV MF E

/-- Package-level functions and values the source uses but does not define:
`GroupVersion.String()`, the error of `meta.Accessor`,
`registrypod.Strategy.PrepareForUpdate(ctx, obj, old)` (gives the new pointee of
`obj`) and `merge.WipeManagedFields`. -/
structure Externals (C TV MF E : Type) where
  GroupVersionString : GroupVersion → String
  errNotObject : E
  PrepareForUpdate : Object C → Object C → Object C
  WipeManagedFields : MF → MF → String → TV → TV → Except E MF

/-- Modelled from the spec: the `Managed` value of package `internal` (its
declaration is not among the sources): an ownership mapping and a timestamp
mapping, read through the accessors `Fields` and `Times`. -/
structure Managed (MF T : Type) where
  Fields : MF
  Times : T

/-- Modelled from the spec: `internal.NewManaged(f, t)` packages an ownership
mapping and a timestamp mapping into a new `Managed` value. -/
def NewManaged (f : MF) (t : T) : Managed MF T := ⟨f, t⟩

/-! ## Errors, results, call log -/

/-- Go `error` values built or passed on by this file.  `ext e` is an error value
produced by a consumed capability; `Errorf` is `fmt.Errorf(format, err)`;
`ErrorfGVK` is `fmt.Errorf(format, gvk, err)`; `NewBadRequest` is
`errors.NewBadRequest(message)`. -/
inductive GoError (E : Type) where
  | ext (e : E) : GoError E
  | Errorf (format : String) (err : GoError E) : GoError E
  | ErrorfGVK (format : String) (gvk : GroupVersionKind) (err : GoError E) : GoError E
  | NewBadRequest (message : String) : GoError E
deriving DecidableEq, Repr

/-- HTTP status code carried by an error (`apierrors.APIStatus`), if any:
`errors.NewBadRequest` builds a status error with `http.StatusBadRequest`. -/
def GoError.Code : GoError E → Option Nat
  | .NewBadRequest _ => some 400
  | _ => none

/-- The Go return triple `(runtime.Object, Managed, error)`. -/
structure Result (MF T E : Type) where
  obj : Option Ref
  managed : Option (Managed MF T)
  err : Option (GoError E)

/-- The triple `nil, nil, err`. -/
def Result.fail (e : GoError E) : Result MF T E := ⟨none, none, some e⟩

/-- One logged call to a consumed capability; `ok` tells whether it returned a nil
error. -/
inductive Call where
  | Accessor (obj : Ref) (ok : Bool)
  | ConvertToVersion (obj : Ref) (gv : GroupVersion) (ok : Bool)
  | ObjectToTyped (obj : Ref) (ok : Bool)
  | TypedToObject (ok : Bool)
  | Default (obj : Ref)
  | PrepareForUpdate (obj old : Ref)
  | UpdaterUpdate (version manager : String) (ok : Bool)
  | UpdaterApply (version manager : String) (force ok : Bool)
  | WipeManagedFields (manager : String) (ok : Bool)
deriving DecidableEq, Repr

/-- Whether the logged call reported a failure. -/
def Call.failed : Call → Bool
  | .Accessor _ ok => !ok
  | .ConvertToVersion _ _ ok => !ok
  | .ObjectToTyped _ ok => !ok
  | .TypedToObject ok => !ok
  | .Default _ => false
  | .PrepareForUpdate _ _ => false
  | .UpdaterUpdate _ _ ok => !ok
  | .UpdaterApply _ _ _ ok => !ok
  | .WipeManagedFields _ ok => !ok

/-- The two calls of the status-wipe step: the prepare-for-update hook and the wipe
operation. -/
def Call.isWipeStep : Call → Bool
  | .PrepareForUpdate _ _ => true
  | .WipeManagedFields _ _ => true
  | _ => false

/-- The API version a logged call handed to the merge engine: the `version` argument
of `f.updater.Update` or `f.updater.Apply`; `none` for every other call. -/
def Call.engineVersion : Call → Option String
  | .UpdaterUpdate version _ _ => some version
  | .UpdaterApply version _ _ _ => some version
  | _ => none

/-- Program state: the object store and the call log. -/
structure World (C : Type) where
  heap : Heap C
  calls : List Call

/-- Append a call to the log. -/
def World.log (w : World C) (c : Call) : World C := { w with calls := w.calls ++ [c] }

/-! ## Calls to the capabilities

Each wrapper performs one call of the source on the current state and logs it. -/

/-- The call `f.objectConverter.ConvertToVersion(obj, gv)`. -/
def ConvertToVersion (f : structuredMergeManager C TV MF E) (obj : Ref) (gv : GroupVersion)
    (w : World C) : Except E Ref × World C :=
  match f.objectConverter.ConvertToVersion (w.heap.read obj) gv with
  | .error err => (.error err, w.log (.ConvertToVersion obj gv false))
  | .ok .same => (.ok obj, w.log (.ConvertToVersion obj gv true))
  | .ok (.copy out) =>
    (.ok (w.heap.alloc out).1,
      { heap := (w.heap.alloc out).2, calls := w.calls ++ [.ConvertToVersion obj gv true] })

/-- Go method `toVersioned`. -/
def toVersioned (f : structuredMergeManager C TV MF E) (obj : Ref) (w : World C) :
    Except E Ref × World C :=
  ConvertToVersion f obj f.groupVersion w

/-- Go method `toUnversioned`. -/
def toUnversioned (f : structuredMergeManager C TV MF E) (obj : Ref) (w : World C) :
    Except E Ref × World C :=
  ConvertToVersion f obj f.hubVersion w

/-- The call `f.typeConverter.ObjectToTyped(obj)`. -/
def ObjectToTyped (f : structuredMergeManager C TV MF E) (obj : Ref) (w : World C) :
    Except E TV × World C :=
  match f.typeConverter.ObjectToTyped (w.heap.read obj) with
  | .error err => (.error err, w.log (.ObjectToTyped obj false))
  | .ok v => (.ok v, w.log (.ObjectToTyped obj true))

/-- The call `f.typeConverter.TypedToObject(v)`: the object it builds is new. -/
def TypedToObject (f : structuredMergeManager C TV MF E) (v : TV) (w : World C) :
    Except E Ref × World C :=
  match f.typeConverter.TypedToObject v with
  | .error err => (.error err, w.log (.TypedToObject false))
  | .ok out =>
    (.ok (w.heap.alloc out).1,
      { heap := (w.heap.alloc out).2, calls := w.calls ++ [.TypedToObject true] })

/-- The call `f.objectDefaulter.Default(obj)`. -/
def Default (f : structuredMergeManager C TV MF E) (obj : Ref) (w : World C) : World C :=
  { heap := w.heap.write obj (f.objectDefaulter.Default (w.heap.read obj)),
    calls := w.calls ++ [.Default obj] }

/-- The call `registrypod.Strategy.PrepareForUpdate(ctx, obj, old)`. -/
def PrepareForUpdate (x : Externals C TV MF E) (obj old : Ref) (w : World C) : World C :=
  { heap := w.heap.write obj (x.PrepareForUpdate (w.heap.read obj) (w.heap.read old)),
    calls := w.calls ++ [.PrepareForUpdate obj old] }

/-- The call `meta.Accessor(obj)`. -/
def Accessor (x : Externals C TV MF E) (obj : Ref) (w : World C) :
    Except E ObjectMeta × World C :=
  match (w.heap.read obj).objectMeta with
  | none => (.error x.errNotObject, w.log (.Accessor obj false))
  | some m => (.ok m, w.log (.Accessor obj true))

/-- The call `f.updater.Update(live, new, version, managers, manager)`. -/
def UpdaterUpdate (f : structuredMergeManager C TV MF E) (live new : TV) (version : String)
    (managers : MF) (manager : String) (w : World C) :
    Except E (Option TV × MF) × World C :=
  match f.updater.Update live new version managers manager with
  | .error err => (.error err, w.log (.UpdaterUpdate version manager false))
  | .ok r => (.ok r, w.log (.UpdaterUpdate version manager true))

/-- The call `f.updater.Apply(live, patch, version, managers, manager, force)`. -/
def UpdaterApply (f : structuredMergeManager C TV MF E) (live patch : TV) (version : String)
    (managers : MF) (manager : String) (force : Bool) (w : World C) :
    Except E (Option TV × MF) × World C :=
  match f.updater.Apply live patch version managers manager force with
  | .error err => (.error err, w.log (.UpdaterApply version manager force false))
  | .ok r => (.ok r, w.log (.UpdaterApply version manager force true))

/-- The call `merge.WipeManagedFields(liveManagers, newManagers, manager, live, prepared)`. -/
def WipeManagedFields (x : Externals C TV MF E) (liveManagers newManagers : MF)
    (manager : String) (live prepared : TV) (w : World C) : Except E MF × World C :=
  match x.WipeManagedFields liveManagers newManagers manager live prepared with
  | .error err => (.error err, w.log (.WipeManagedFields manager false))
  | .ok m => (.ok m, w.log (.WipeManagedFields manager true))

/-! ## The field manager -/

/-- Go method `preparedPatchTypedValue` (structuredmerge.go, lines 215-238). -/
def preparedPatchTypedValue (x : Externals C TV MF E) (f : structuredMergeManager C TV MF E)
    (liveObj patchObj : Ref) (w : World C) : Except (GoError E) TV × World C :=
  match toUnversioned f liveObj w with
  | (.error err, w) =>
    (.error (.Errorf "failed to convert live object to unversioned: %w" (.ext err)), w)
  | (.ok liveObjUnversioned, w) =>
  match toUnversioned f patchObj w with
  | (.error err, w) =>
    (.error (.Errorf "failed to convert patch object to unversioned: %w" (.ext err)), w)
  | (.ok patchObjUnversioned, w) =>
  match toVersioned f patchObjUnversioned
      (PrepareForUpdate x patchObjUnversioned liveObjUnversioned w) with
  | (.error err, w) =>
    (.error (.Errorf "failed to convert prepared patch object to proper version: %w"
      (.ext err)), w)
  | (.ok preparedPatchObjVersioned, w) =>
  match ObjectToTyped f preparedPatchObjVersioned w with
  | (.error err, w) => (.error (.Errorf "failed to create typed patch object: %v" (.ext err)), w)
  | (.ok preparedPatchObjTyped, w) => (.ok preparedPatchObjTyped, w)

/-- The block `if obj.GetObjectKind().GroupVersionKind().Kind == "Pod" { ... }` that
`Update` (lines 106-120, `obj` is `newObj`) and `Apply` (lines 167-181, `obj` is
`patchObj`) both contain: it either returns an error from the enclosing function or
leaves a new value in the variable `managedFields`. -/
def wipeIfPod (x : Externals C TV MF E) (f : structuredMergeManager C TV MF E)
    (liveObj obj : Ref) (liveManagedFields managedFields : MF) (manager : String)
    (liveObjTyped : TV) (w : World C) : Except (GoError E) MF × World C :=
  if (w.heap.read obj).gvk.Kind = "Pod" then
    match preparedPatchTypedValue x f liveObj obj w with
    | (.error err, w) => (.error (.Errorf "failed to get preparedPatchTypedValue: %v" err), w)
    | (.ok preparedPatchTypedValue, w) =>
    match WipeManagedFields x liveManagedFields managedFields manager liveObjTyped
        preparedPatchTypedValue w with
    | (.error err, w) => (.error (.Errorf "failed to wipe managedFields: %w" (.ext err)), w)
    | (.ok managedFields, w) => (.ok managedFields, w)
  else
    (.ok managedFields, w)

/-- Go method `structuredMergeManager.Update` (lines 80-125). -/
def Update (x : Externals C TV MF E) (f : structuredMergeManager C TV MF E)
    (liveObj newObj : Ref) (managed : Managed MF T) (manager : String) (w : World C) :
    Result MF T E × World C :=
  match toVersioned f newObj w with
  | (.error err, w) =>
    (.fail (.Errorf "failed to convert new object to proper version: %v" (.ext err)), w)
  | (.ok newObjVersioned, w) =>
  match toVersioned f liveObj w with
  | (.error err, w) =>
    (.fail (.Errorf "failed to convert live object to proper version: %v" (.ext err)), w)
  | (.ok liveObjVersioned, w) =>
  match ObjectToTyped f newObjVersioned w with
  | (.error err, w) =>
    (.fail (.ErrorfGVK "failed to convert new object (%v) to smd typed: %v"
      (w.heap.read newObjVersioned).gvk (.ext err)), w)
  | (.ok newObjTyped, w) =>
  match ObjectToTyped f liveObjVersioned w with
  | (.error err, w) =>
    (.fail (.ErrorfGVK "failed to convert live object (%v) to smd typed: %v"
      (w.heap.read liveObjVersioned).gvk (.ext err)), w)
  | (.ok liveObjTyped, w) =>
  match UpdaterUpdate f liveObjTyped newObjTyped (x.GroupVersionString f.groupVersion)
      managed.Fields manager w with
  | (.error err, w) => (.fail (.Errorf "failed to update ManagedFields: %v" (.ext err)), w)
  | (.ok (_, managedFields), w) =>
  match wipeIfPod x f liveObj newObj managed.Fields managedFields manager liveObjTyped w with
  | (.error err, w) => (.fail err, w)
  | (.ok managedFields, w) =>
    (⟨some newObj, some (NewManaged managedFields managed.Times), none⟩, w)

/-- The message built at lines 133-135:
`fmt.Sprintf("Incorrect version specified in apply patch. "+
"Specified patch version: %s, expected: %s", patchVersion, f.groupVersion)`. -/
def incorrectVersionMessage (x : Externals C TV MF E) (patchVersion groupVersion : GroupVersion) :
    String :=
  "Incorrect version specified in apply patch. " ++ "Specified patch version: " ++
    x.GroupVersionString patchVersion ++ ", expected: " ++ x.GroupVersionString groupVersion

/-- Go method `structuredMergeManager.Apply` (lines 128-205). -/
def Apply (x : Externals C TV MF E) (f : structuredMergeManager C TV MF E)
    (liveObj patchObj : Ref) (managed : Managed MF T) (manager : String) (force : Bool)
    (w : World C) : Result MF T E × World C :=
  if (w.heap.read patchObj).gvk.GroupVersion ≠ f.groupVersion then
    (.fail (.NewBadRequest (incorrectVersionMessage x
      (w.heap.read patchObj).gvk.GroupVersion f.groupVersion)), w)
  else
  match Accessor x patchObj w with
  | (.error err, w) => (.fail (.Errorf "couldn't get accessor: %v" (.ext err)), w)
  | (.ok patchObjMeta, w) =>
  if patchObjMeta.ManagedFields ≠ none then
    (.fail (.NewBadRequest "metadata.managedFields must be nil"), w)
  else
  match toVersioned f liveObj w with
  | (.error err, w) =>
    (.fail (.Errorf "failed to convert live object to proper version: %v" (.ext err)), w)
  | (.ok liveObjVersioned, w) =>
  match ObjectToTyped f patchObj w with
  | (.error err, w) => (.fail (.Errorf "failed to create typed patch object: %v" (.ext err)), w)
  | (.ok patchObjTyped, w) =>
  match ObjectToTyped f liveObjVersioned w with
  | (.error err, w) => (.fail (.Errorf "failed to create typed live object: %v" (.ext err)), w)
  | (.ok liveObjTyped, w) =>
  match UpdaterApply f liveObjTyped patchObjTyped (x.GroupVersionString f.groupVersion)
      managed.Fields manager force w with
  | (.error err, w) => (.fail (.ext err), w)
  | (.ok (newObjTyped, managedFields), w) =>
  match wipeIfPod x f liveObj patchObj managed.Fields managedFields manager liveObjTyped w with
  | (.error err, w) => (.fail err, w)
  | (.ok managedFields, w) =>
  match newObjTyped with
  | none => (⟨none, some (NewManaged managedFields managed.Times), none⟩, w)
  | some newObjTyped =>
  match TypedToObject f newObjTyped w with
  | (.error err, w) =>
    (.fail (.Errorf "failed to convert new typed object to object: %v" (.ext err)), w)
  | (.ok newObj, w) =>
  match toVersioned f newObj w with
  | (.error err, w) =>
    (.fail (.Errorf "failed to convert new object to proper version: %v" (.ext err)), w)
  | (.ok newObjVersioned, w) =>
  match toUnversioned f newObjVersioned (Default f newObjVersioned w) with
  | (.error err, w) => (.fail (.Errorf "failed to convert to unversioned: %v" (.ext err)), w)
  | (.ok newObjUnversioned, w) =>
    (⟨some newObjUnversioned, some (NewManaged managedFields managed.Times), none⟩, w)

/-! ## Value-level reading of the conversions

The same computations on pointees instead of pointers, used to state what the typed
values handed to the merge engine and to the wipe operation are. -/

/-- The pointee of the object returned by `ConvertToVersion(o, gv)`. -/
def convertValue (f : structuredMergeManager C TV MF E) (o : Object C) (gv : GroupVersion) :
    Except E (Object C) :=
  match f.objectConverter.ConvertToVersion o gv with
  | .error err => .error err
  | .ok .same => .ok o
  | .ok (.copy out) => .ok out

/-- The typed form of the declared-version conversion of the prepare-for-update hook
applied to the hub conversion of `incoming` against the hub conversion of `live`. -/
def preparedValue (x : Externals C TV MF E) (f : structuredMergeManager C TV MF E)
    (live incoming : Object C) : Except E TV :=
  match convertValue f live f.hubVersion with
  | .error err => .error err
  | .ok liveHub =>
  match convertValue f incoming f.hubVersion with
  | .error err => .error err
  | .ok incomingHub =>
  match convertValue f (x.PrepareForUpdate incomingHub liveHub) f.groupVersion with
  | .error err => .error err
  | .ok prepared => f.typeConverter.ObjectToTyped prepared

/-- The heap `h'` keeps every object allocated in `h` as it is. -/
def Heap.Extends (h h' : Heap C) : Prop :=
  h.next ≤ h'.next ∧ ∀ r, r < h.next → h'.cell r = h.cell r

/-- What the status-wipe step does in a successful call started in state `w` and
ended in state `w'`, for the incoming object `obj` (`newObj` of `Update`, `patchObj` of
`Apply`): `mfE` is the ownership mapping the merge engine returned, `liveT` the live
typed value, `wiped` the ownership mapping the call returns.  For a kind other than
"Pod" the returned mapping is the engine's and the log holds no call of the hook or of
the wipe operation; for kind "Pod" the returned mapping is the result of the wipe
operation on the pre-call mapping, the engine's mapping, the manager, the live typed
value and the prepared typed value, and the hook and the wipe operation are each called
once. -/
def WipePolicy (x : Externals C TV MF E) (f : structuredMergeManager C TV MF E)
    (liveObj obj : Ref) (managed : Managed MF T) (manager : String) (liveT : TV)
    (mfE wiped : MF) (w w' : World C) : Prop :=
  ((w.heap.read obj).gvk.Kind ≠ "Pod" ∧ wiped = mfE ∧
      ∃ l, w'.calls = w.calls ++ l ∧ l.filter Call.isWipeStep = []) ∨
    ((w.heap.read obj).gvk.Kind = "Pod" ∧ ∃ prepared,
      preparedValue x f (w.heap.read liveObj) (w.heap.read obj) = .ok prepared ∧
      x.WipeManagedFields managed.Fields mfE manager liveT prepared = .ok wiped ∧
      ∃ l patchU liveU, w'.calls = w.calls ++ l ∧
        l.filter Call.isWipeStep =
          [Call.PrepareForUpdate patchU liveU, Call.WipeManagedFields manager true])

/-! ## A concrete configuration

A small instance of the capabilities, used to run `Update` and `Apply` on concrete
inputs.  The object converter and the defaulter are the fakes of `patch_test.go`; the
prepare-for-update hook is the Pod one (the incoming status is replaced by the live
status). -/

/-- Pod content: one spec field and one status field. -/
structure PodContent where
  image : String
  phase : String
deriving DecidableEq, Repr

/-- Ownership mapping of the instance: manager name and the fields it owns. -/
abbrev Owners := List (String × List String)

/-- The fields a content value sets. -/
def PodContent.fields (c : PodContent) : List String :=
  (if c.image = "" then [] else ["spec.image"]) ++
    (if c.phase = "" then [] else ["status.phase"])

/-- The group-version-kind of `TestApplyPatchVersionCheck`. -/
def podGVK : GroupVersionKind := ⟨"apps", "v1", "Pod"⟩

/-- Go type `fakeObjectConvertor` (patch_test.go, lines 31-43): `ConvertToVersion`
returns `in, nil`. -/
def fakeObjectConvertor : ObjectConvertor PodContent String :=
  ⟨fun _ _ => .ok .same⟩

/-- A converter that always builds a new object carrying the target version. -/
def copyingObjectConvertor : ObjectConvertor PodContent String :=
  ⟨fun o gv => .ok (.copy { o with gvk := ⟨gv.Group, gv.Version, o.gvk.Kind⟩ })⟩

/-- Go type `fakeObjectDefaulter` (patch_test.go, lines 45-47): `Default` does nothing. -/
def fakeObjectDefaulter : ObjectDefaulter PodContent := ⟨fun o => o⟩

/-- A type converter whose typed values are the content of the object. -/
def sampleTypeConverter : TypeConverter PodContent PodContent String :=
  { ObjectToTyped := fun o => .ok o.content
    TypedToObject := fun c => .ok ⟨podGVK, some ⟨none, ""⟩, c⟩ }

/-- A merge engine: `Update` records the fields of the new object for the manager;
`Apply` reports a conflict when another manager owns a field of the patch and `force`
is off, gives no object for a patch that sets nothing, and otherwise gives the patch
laid over the live object. -/
def sampleUpdater : Updater PodContent Owners String :=
  { Update := fun _ new _ managers manager =>
      .ok (none, (manager, new.fields) :: managers.filter (fun p => p.1 != manager))
    Apply := fun live patch _ managers manager force =>
      if !force && managers.any (fun p => p.1 != manager &&
          p.2.any (fun fld => patch.fields.contains fld)) then
        .error "conflict"
      else if patch.fields.isEmpty then
        .ok (none, managers.filter (fun p => p.1 != manager))
      else
        .ok (some ⟨if patch.image = "" then live.image else patch.image,
              if patch.phase = "" then live.phase else patch.phase⟩,
          (manager, patch.fields) :: managers.filter (fun p => p.1 != manager)) }

/-- The manager of the test: declared and hub version are both `apps/v1`. -/
def sampleManager (conv : ObjectConvertor PodContent String) :
    structuredMergeManager PodContent PodContent Owners String :=
  { typeConverter := sampleTypeConverter
    objectConverter := conv
    objectDefaulter := fakeObjectDefaulter
    groupVersion := ⟨"apps", "v1"⟩
    hubVersion := ⟨"apps", "v1"⟩
    updater := sampleUpdater }

/-- Modelled from the spec: the Pod prepare-for-update hook
`registrypod.Strategy.PrepareForUpdate(ctx, obj, old)`, whose declaration is not among
the sources: it "strips fields a controller would overwrite, e.g. status": the status of
the incoming object is replaced by the status of the live object. -/
def podPrepareForUpdate (obj old : Object PodContent) : Object PodContent :=
  { obj with content := { obj.content with phase := old.content.phase } }

/-- The externals of the instance: group-versions print as `group/version`, the hook is
the Pod one, and the wipe operation drops `status.phase` from the manager's fields when
the prepared object has the live phase. -/
def sampleExternals : Externals PodContent PodContent Owners String :=
  { GroupVersionString := fun gv =>
      if gv.Group = "" then gv.Version else gv.Group ++ "/" ++ gv.Version
    errNotObject := "object does not implement the Object interfaces"
    PrepareForUpdate := podPrepareForUpdate
    WipeManagedFields := fun _ newManagers manager live prepared =>
      .ok (newManagers.map (fun p =>
        if p.1 = manager then
          (p.1, p.2.filter (fun fld => fld != "status.phase" || prepared.phase != live.phase))
        else p)) }

/-- A Pod object of version `apps/v1` with nil `managedFields`. -/
def pod (image phase : String) : Object PodContent :=
  ⟨podGVK, some ⟨none, ""⟩, ⟨image, phase⟩⟩

/-- The object the reference `0` points to is the live Pod (phase "Running"); the
reference `1` points to the incoming object `incoming`. -/
def sampleWorld (incoming : Object PodContent) : World PodContent :=
  { heap := { next := 2, cell := fun r => if r = 0 then pod "live-image" "Running" else incoming }
    calls := [] }

/-- A patch of version `apps/v2`, as in `TestApplyPatchVersionCheck`. -/
def podV2 : Object PodContent :=
  ⟨⟨"apps", "v2", "Pod"⟩, some ⟨none, ""⟩, ⟨"test-image", ""⟩⟩

/-- A patch whose `managedFields` is an empty, non-nil list. -/
def podWithManagedFields : Object PodContent :=
  ⟨podGVK, some ⟨some [], ""⟩, ⟨"test-image", ""⟩⟩

/-- A ConfigMap-like object of version `apps/v1`: any kind other than "Pod". -/
def configMap (image phase : String) : Object PodContent :=
  ⟨⟨"apps", "v1", "ConfigMap"⟩, some ⟨none, ""⟩, ⟨image, phase⟩⟩

/-- The field `spec.image` is owned by the manager "other". -/
def ownedByOther : Managed Owners (List (String × Nat)) :=
  ⟨[("other", ["spec.image"])], [("other", 1)]⟩

/-- A merge engine that keeps, in front of the fields it records for the manager, the
API version it was given (the real engine stores that version with the manager's field
set). -/
def versionRecordingUpdater : Updater PodContent Owners String :=
  { Update := fun _ new version managers manager =>
      .ok (none, (manager, version :: new.fields) :: managers.filter (fun p => p.1 != manager))
    Apply := fun _ patch version managers manager _ =>
      .ok (some patch,
        (manager, version :: patch.fields) :: managers.filter (fun p => p.1 != manager)) }

/-- A manager whose declared version `apps/v1` differs from its hub version
`apps/__internal`; its converter builds a new object in the target version. -/
def hubManager : structuredMergeManager PodContent PodContent Owners String :=
  { typeConverter := sampleTypeConverter
    objectConverter := copyingObjectConvertor
    objectDefaulter := fakeObjectDefaulter
    groupVersion := ⟨"apps", "v1"⟩
    hubVersion := ⟨"apps", "__internal"⟩
    updater := versionRecordingUpdater }

/-- No owner yet, no timestamp. -/
def sampleManaged : Managed Owners (List (String × Nat)) := ⟨[], []⟩

/-! ## Field-manager identity resolution (package `handlers`)

`fieldManagerOrUserAgent`, `prefixFromUserAgent` and `validFieldManager` are called by
`create_test.go`; their declarations are not among the sources.  A Go string is a
sequence of bytes and `len` counts bytes: the model uses `String` with its UTF-8 size. -/

/-- Modelled from the spec: the fixed maximum length of a manager name
(`validation.FieldManagerMaxLength`), 128. -/
def FieldManagerMaxLength : Nat := 128

/-- Go `len(s)`: the number of bytes of `s`. -/
def len (s : String) : Nat := s.utf8ByteSize

/-- Modelled from the spec: "truncate to the maximum": the leading characters of a
name are kept as long as they fit in `max` bytes. -/
def truncateChars : Nat → List Char → List Char
  | _, [] => []
  | max, c :: cs => if c.utf8Size ≤ max then c :: truncateChars (max - c.utf8Size) cs else []

/-- Modelled from the spec: `prefixFromUserAgent(u)`, missing from the sources: "take
the substring up to (not including) the first `/`; if that substring exceeds the
maximum manager-name length, truncate to the maximum". -/
def prefixFromUserAgent (u : String) : String :=
  ⟨truncateChars FieldManagerMaxLength (u.data.takeWhile (fun c => c != '/'))⟩

/-- Modelled from the spec: `fieldManagerOrUserAgent(manager, userAgent)`, missing from
the sources: "if an explicit manager name is present on the request, use it", otherwise
the name derived from the client string.  (The fall-back to a fixed default value when
the result is still empty is a later step of the resolution, not part of this
function.) -/
def fieldManagerOrUserAgent (manager userAgent : String) : String :=
  if manager ≠ "" then manager else userAgent

/-- Modelled from the spec: the errors of manager-name validation: a name longer than
the maximum, and a `field` argument that contradicts the stored manager. -/
inductive ManagerError where
  | tooLong (name : String) : ManagerError
  | mismatch (stored field : String) : ManagerError
deriving DecidableEq, Repr

/-- Modelled from the spec: `validFieldManager(obj, field)`, missing from the sources;
the object is given by its metadata, the only part read.  With an empty `field` the
stored manager is returned after length validation; a non-empty `field` that differs
from a non-empty stored manager gives the empty name and a validation error; otherwise
`field` is returned (cases of `TestValidFieldManager` and `TestManagerValidation`). -/
def validFieldManager (obj : ObjectMeta) (field : String) : String × Option ManagerError :=
  if field = "" then
    if len obj.FieldManager > FieldManagerMaxLength then
      ("", some (.tooLong obj.FieldManager))
    else
      (obj.FieldManager, none)
  else if obj.FieldManager ≠ "" ∧ obj.FieldManager ≠ field then
    ("", some (.mismatch obj.FieldManager field))
  else
    (field, none)

/-! ## Theorems -/

/-! ### The call log of each capability call -/

theorem pair_eq_iff {α β : Type} (p : α × β) (a : α) (b : β) :
    p = (a, b) ↔ p.1 = a ∧ b = p.2 := by
  constructor
  · intro h; subst h; exact ⟨rfl, rfl⟩
  · rintro ⟨h1, h2⟩; subst h1; subst h2; rfl

@[simp] theorem isOk_ok {ε α : Type} (a : α) : (Except.ok a : Except ε α).isOk = true := rfl

@[simp] theorem isOk_error {ε α : Type} (e : ε) : (Except.error e : Except ε α).isOk = false :=
  rfl

@[simp] theorem failed_Accessor (obj : Ref) (ok : Bool) :
    (Call.Accessor obj ok).failed = (!ok) := rfl

@[simp] theorem failed_ConvertToVersion (obj : Ref) (gv : GroupVersion) (ok : Bool) :
    (Call.ConvertToVersion obj gv ok).failed = (!ok) := rfl

@[simp] theorem failed_ObjectToTyped (obj : Ref) (ok : Bool) :
    (Call.ObjectToTyped obj ok).failed = (!ok) := rfl

@[simp] theorem failed_TypedToObject (ok : Bool) :
    (Call.TypedToObject ok).failed = (!ok) := rfl

@[simp] theorem failed_Default (obj : Ref) :
    (Call.Default obj).failed = false := rfl

@[simp] theorem failed_PrepareForUpdate (obj old : Ref) :
    (Call.PrepareForUpdate obj old).failed = false := rfl

@[simp] theorem failed_UpdaterUpdate (v m : String) (ok : Bool) :
    (Call.UpdaterUpdate v m ok).failed = (!ok) := rfl

@[simp] theorem failed_UpdaterApply (v m : String) (force ok : Bool) :
    (Call.UpdaterApply v m force ok).failed = (!ok) := rfl

@[simp] theorem failed_WipeManagedFields (m : String) (ok : Bool) :
    (Call.WipeManagedFields m ok).failed = (!ok) := rfl

theorem ConvertToVersion_calls (f : structuredMergeManager C TV MF E) (obj : Ref)
    (gv : GroupVersion) (w : World C) :
    (ConvertToVersion f obj gv w).2.calls =
      w.calls ++ [Call.ConvertToVersion obj gv (ConvertToVersion f obj gv w).1.isOk] := by
  unfold ConvertToVersion
  split <;> simp [World.log]

theorem toVersioned_calls (f : structuredMergeManager C TV MF E) (obj : Ref) (w : World C) :
    (toVersioned f obj w).2.calls =
      w.calls ++ [Call.ConvertToVersion obj f.groupVersion (toVersioned f obj w).1.isOk] :=
  ConvertToVersion_calls f obj f.groupVersion w

theorem toUnversioned_calls (f : structuredMergeManager C TV MF E) (obj : Ref) (w : World C) :
    (toUnversioned f obj w).2.calls =
      w.calls ++ [Call.ConvertToVersion obj f.hubVersion (toUnversioned f obj w).1.isOk] :=
  ConvertToVersion_calls f obj f.hubVersion w

theorem ObjectToTyped_calls (f : structuredMergeManager C TV MF E) (obj : Ref) (w : World C) :
    (ObjectToTyped f obj w).2.calls =
      w.calls ++ [Call.ObjectToTyped obj (ObjectToTyped f obj w).1.isOk] := by
  unfold ObjectToTyped
  split <;> simp [World.log]

theorem TypedToObject_calls (f : structuredMergeManager C TV MF E) (v : TV) (w : World C) :
    (TypedToObject f v w).2.calls =
      w.calls ++ [Call.TypedToObject (TypedToObject f v w).1.isOk] := by
  unfold TypedToObject
  split <;> simp [World.log]

theorem Default_calls (f : structuredMergeManager C TV MF E) (obj : Ref) (w : World C) :
    (Default f obj w).calls = w.calls ++ [Call.Default obj] := rfl

theorem PrepareForUpdate_calls (x : Externals C TV MF E) (obj old : Ref) (w : World C) :
    (PrepareForUpdate x obj old w).calls = w.calls ++ [Call.PrepareForUpdate obj old] := rfl

theorem Accessor_calls (x : Externals C TV MF E) (obj : Ref) (w : World C) :
    (Accessor x obj w).2.calls = w.calls ++ [Call.Accessor obj (Accessor x obj w).1.isOk] := by
  unfold Accessor
  split <;> simp [World.log]

theorem UpdaterUpdate_calls (f : structuredMergeManager C TV MF E) (live new : TV)
    (version : String) (managers : MF) (manager : String) (w : World C) :
    (UpdaterUpdate f live new version managers manager w).2.calls =
      w.calls ++ [Call.UpdaterUpdate version manager
        (UpdaterUpdate f live new version managers manager w).1.isOk] := by
  unfold UpdaterUpdate
  split <;> simp [World.log]

theorem UpdaterApply_calls (f : structuredMergeManager C TV MF E) (live patch : TV)
    (version : String) (managers : MF) (manager : String) (force : Bool) (w : World C) :
    (UpdaterApply f live patch version managers manager force w).2.calls =
      w.calls ++ [Call.UpdaterApply version manager force
        (UpdaterApply f live patch version managers manager force w).1.isOk] := by
  unfold UpdaterApply
  split <;> simp [World.log]

theorem WipeManagedFields_calls (x : Externals C TV MF E) (liveManagers newManagers : MF)
    (manager : String) (live prepared : TV) (w : World C) :
    (WipeManagedFields x liveManagers newManagers manager live prepared w).2.calls =
      w.calls ++ [Call.WipeManagedFields manager
        (WipeManagedFields x liveManagers newManagers manager live prepared w).1.isOk] := by
  unfold WipeManagedFields
  split <;> simp [World.log]

/-! ### The heap after each capability call -/

theorem Heap.Extends.refl (h : Heap C) : h.Extends h := ⟨le_rfl, fun _ _ => rfl⟩

theorem Heap.Extends.trans {h1 h2 h3 : Heap C} (a : h1.Extends h2) (b : h2.Extends h3) :
    h1.Extends h3 :=
  ⟨le_trans a.1 b.1, fun r hr => (b.2 r (lt_of_lt_of_le hr a.1)).trans (a.2 r hr)⟩

theorem Heap.Extends.read {h h' : Heap C} (a : h.Extends h') {r : Ref} (hr : r < h.next) :
    h'.read r = h.read r := a.2 r hr

theorem ConvertToVersion_ok (f : structuredMergeManager C TV MF E) (obj : Ref)
    (gv : GroupVersion) (w w' : World C) (r : Ref)
    (h : ConvertToVersion f obj gv w = (.ok r, w')) (hobj : obj < w.heap.next) :
    convertValue f (w.heap.read obj) gv = .ok (w'.heap.read r) ∧ w.heap.Extends w'.heap ∧
      r < w'.heap.next := by
  unfold ConvertToVersion at h
  unfold convertValue
  split at h
  · simp at h
  · rename_i hc
    simp [World.log] at h
    obtain ⟨rfl, rfl⟩ := h
    simp [hc, Heap.Extends.refl, hobj]
  · rename_i out hc
    simp at h
    obtain ⟨rfl, rfl⟩ := h
    refine ⟨?_, ⟨?_, ?_⟩, ?_⟩
    · simp [hc, Heap.alloc, Heap.read]
    · simp [Heap.alloc]
    · intro r hr
      have : r ≠ w.heap.next := Nat.ne_of_lt hr
      simp [Heap.alloc, this]
    · simp [Heap.alloc]

theorem ConvertToVersion_error (f : structuredMergeManager C TV MF E) (obj : Ref)
    (gv : GroupVersion) (w w' : World C) (e : E)
    (h : ConvertToVersion f obj gv w = (.error e, w')) :
    convertValue f (w.heap.read obj) gv = .error e ∧ w'.heap = w.heap := by
  unfold ConvertToVersion at h
  unfold convertValue
  split at h
  · rename_i hc
    simp [World.log] at h
    obtain ⟨rfl, rfl⟩ := h
    simp [hc]
  · simp at h
  · simp at h

theorem ConvertToVersion_extends (f : structuredMergeManager C TV MF E) (obj : Ref)
    (gv : GroupVersion) (w : World C) :
    w.heap.Extends (ConvertToVersion f obj gv w).2.heap := by
  unfold ConvertToVersion
  split
  · exact Heap.Extends.refl _
  · exact Heap.Extends.refl _
  · refine ⟨by simp [Heap.alloc], ?_⟩
    intro r hr
    have : r ≠ w.heap.next := Nat.ne_of_lt hr
    simp [Heap.alloc, this]

theorem ObjectToTyped_eq (f : structuredMergeManager C TV MF E) (obj : Ref) (w w' : World C)
    (r : Except E TV) (h : ObjectToTyped f obj w = (r, w')) :
    f.typeConverter.ObjectToTyped (w.heap.read obj) = r ∧ w'.heap = w.heap := by
  unfold ObjectToTyped at h
  split at h <;> rename_i hc <;> simp [World.log] at h <;> obtain ⟨rfl, rfl⟩ := h <;> simp [hc]

theorem UpdaterUpdate_eq (f : structuredMergeManager C TV MF E) (live new : TV)
    (version : String) (managers : MF) (manager : String) (w w' : World C)
    (r : Except E (Option TV × MF))
    (h : UpdaterUpdate f live new version managers manager w = (r, w')) :
    f.updater.Update live new version managers manager = r ∧ w'.heap = w.heap := by
  unfold UpdaterUpdate at h
  split at h <;> rename_i hc <;> simp [World.log] at h <;> obtain ⟨rfl, rfl⟩ := h <;> simp [hc]

theorem UpdaterApply_eq (f : structuredMergeManager C TV MF E) (live patch : TV)
    (version : String) (managers : MF) (manager : String) (force : Bool) (w w' : World C)
    (r : Except E (Option TV × MF))
    (h : UpdaterApply f live patch version managers manager force w = (r, w')) :
    f.updater.Apply live patch version managers manager force = r ∧ w'.heap = w.heap := by
  unfold UpdaterApply at h
  split at h <;> rename_i hc <;> simp [World.log] at h <;> obtain ⟨rfl, rfl⟩ := h <;> simp [hc]

theorem WipeManagedFields_eq (x : Externals C TV MF E) (liveManagers newManagers : MF)
    (manager : String) (live prepared : TV) (w w' : World C) (r : Except E MF)
    (h : WipeManagedFields x liveManagers newManagers manager live prepared w = (r, w')) :
    x.WipeManagedFields liveManagers newManagers manager live prepared = r ∧
      w'.heap = w.heap := by
  unfold WipeManagedFields at h
  split at h <;> rename_i hc <;> simp [World.log] at h <;> obtain ⟨rfl, rfl⟩ := h <;> simp [hc]

theorem preparedPatchTypedValue_ok_calls (x : Externals C TV MF E)
    (f : structuredMergeManager C TV MF E) (liveObj patchObj : Ref) (w w' : World C) (tv : TV)
    (h : preparedPatchTypedValue x f liveObj patchObj w = (.ok tv, w')) :
    ∃ liveU patchU preparedV, w'.calls = w.calls ++
      [Call.ConvertToVersion liveObj f.hubVersion true,
        Call.ConvertToVersion patchObj f.hubVersion true,
        Call.PrepareForUpdate patchU liveU,
        Call.ConvertToVersion patchU f.groupVersion true,
        Call.ObjectToTyped preparedV true] := by
  unfold preparedPatchTypedValue at h
  split at h
  · simp at h
  rename_i liveU w1 h1
  split at h
  · simp at h
  rename_i patchU w2 h2
  split at h
  · simp at h
  rename_i preparedV w3 h3
  split at h
  · simp at h
  rename_i tv' w4 h4
  simp at h
  obtain ⟨rfl, rfl⟩ := h
  refine ⟨liveU, patchU, preparedV, ?_⟩
  have c1 := toUnversioned_calls f liveObj w
  have c2 := toUnversioned_calls f patchObj w1
  have c3 := toVersioned_calls f patchU (PrepareForUpdate x patchU liveU w2)
  have c4 := ObjectToTyped_calls f preparedV w3
  rw [h1] at c1
  rw [h2] at c2
  rw [h3] at c3
  rw [h4] at c4
  simp [PrepareForUpdate_calls] at c1 c2 c3 c4
  rw [c4, c3, c2, c1]
  simp

theorem preparedPatchTypedValue_ok (x : Externals C TV MF E)
    (f : structuredMergeManager C TV MF E) (liveObj patchObj : Ref) (w w' : World C) (tv : TV)
    (h : preparedPatchTypedValue x f liveObj patchObj w = (.ok tv, w'))
    (hl : liveObj < w.heap.next) (hp : patchObj < w.heap.next) :
    preparedValue x f (w.heap.read liveObj) (w.heap.read patchObj) = .ok tv := by
  unfold preparedPatchTypedValue at h
  split at h
  · simp at h
  rename_i liveU w1 h1
  split at h
  · simp at h
  rename_i patchU w2 h2
  split at h
  · simp at h
  rename_i preparedV w3 h3
  split at h
  · simp at h
  rename_i tv' w4 h4
  simp at h
  obtain ⟨rfl, rfl⟩ := h
  obtain ⟨v1, e1, n1⟩ := ConvertToVersion_ok f liveObj f.hubVersion w w1 liveU h1 hl
  obtain ⟨v2, e2, n2⟩ := ConvertToVersion_ok f patchObj f.hubVersion w1 w2 patchU h2
    (lt_of_lt_of_le hp e1.1)
  have n1' : liveU < w2.heap.next := lt_of_lt_of_le n1 e2.1
  obtain ⟨v3, e3, n3⟩ := ConvertToVersion_ok f patchU f.groupVersion _ w3 preparedV h3
    (by simpa [PrepareForUpdate, Heap.write] using n2)
  obtain ⟨v4, -⟩ := ObjectToTyped_eq f preparedV w3 w4 _ h4
  unfold preparedValue
  rw [v1]
  simp only
  rw [← e1.read hp, v2]
  simp only
  rw [← e2.read n1]
  have : (PrepareForUpdate x patchU liveU w2).heap.read patchU =
      x.PrepareForUpdate (w2.heap.read patchU) (w2.heap.read liveU) := by
    simp [PrepareForUpdate, Heap.write, Heap.read]
  rw [this] at v3
  rw [v3]
  simpa using v4

theorem wipeIfPod_ok (x : Externals C TV MF E) (f : structuredMergeManager C TV MF E)
    (liveObj obj : Ref) (liveManagedFields managedFields : MF) (manager : String)
    (liveObjTyped : TV) (w w' : World C) (wiped : MF)
    (h : wipeIfPod x f liveObj obj liveManagedFields managedFields manager liveObjTyped w =
      (.ok wiped, w')) :
    ((w.heap.read obj).gvk.Kind ≠ "Pod" ∧ wiped = managedFields ∧ w' = w) ∨
    ((w.heap.read obj).gvk.Kind = "Pod" ∧ ∃ prepared wp,
      preparedPatchTypedValue x f liveObj obj w = (.ok prepared, wp) ∧
      x.WipeManagedFields liveManagedFields managedFields manager liveObjTyped prepared =
        .ok wiped ∧
      w' = wp.log (.WipeManagedFields manager true)) := by
  unfold wipeIfPod at h
  split at h
  · rename_i hk
    right
    refine ⟨hk, ?_⟩
    split at h
    · simp at h
    rename_i prepared wp hp
    split at h
    · simp at h
    rename_i wiped' w2 hw
    simp at h
    obtain ⟨rfl, rfl⟩ := h
    refine ⟨prepared, wp, hp, ?_, ?_⟩
    · exact (WipeManagedFields_eq _ _ _ _ _ _ _ _ _ hw).1
    · unfold WipeManagedFields at hw
      split at hw
      · simp at hw
      · simp at hw
        exact hw.2.symm
  · rename_i hk
    simp at h
    exact Or.inl ⟨hk, h.1.symm, h.2.symm⟩

theorem Update_ok (x : Externals C TV MF E) (f : structuredMergeManager C TV MF E)
    (liveObj newObj : Ref) (managed : Managed MF T) (manager : String) (w w' : World C)
    (res : Result MF T E)
    (h : Update x f liveObj newObj managed manager w = (res, w')) (herr : res.err = none)
    (hl : liveObj < w.heap.next) (hn : newObj < w.heap.next) :
    ∃ newV liveV newT liveT tv mfE wiped,
      convertValue f (w.heap.read newObj) f.groupVersion = .ok newV ∧
      convertValue f (w.heap.read liveObj) f.groupVersion = .ok liveV ∧
      f.typeConverter.ObjectToTyped newV = .ok newT ∧
      f.typeConverter.ObjectToTyped liveV = .ok liveT ∧
      f.updater.Update liveT newT (x.GroupVersionString f.groupVersion) managed.Fields manager =
        .ok (tv, mfE) ∧
      res = ⟨some newObj, some (NewManaged wiped managed.Times), none⟩ ∧
      WipePolicy x f liveObj newObj managed manager liveT mfE wiped w w' := by
  unfold WipePolicy
  unfold Update at h
  split at h
  · simp [Result.fail] at h; obtain ⟨rfl, rfl⟩ := h; simp at herr
  rename_i nvr w1 h1
  split at h
  · simp [Result.fail] at h; obtain ⟨rfl, rfl⟩ := h; simp at herr
  rename_i lvr w2 h2
  split at h
  · simp [Result.fail] at h; obtain ⟨rfl, rfl⟩ := h; simp at herr
  rename_i newT w3 h3
  split at h
  · simp [Result.fail] at h; obtain ⟨rfl, rfl⟩ := h; simp at herr
  rename_i liveT w4 h4
  split at h
  · simp [Result.fail] at h; obtain ⟨rfl, rfl⟩ := h; simp at herr
  rename_i tv mfE w5 h5
  split at h
  · simp [Result.fail] at h; obtain ⟨rfl, rfl⟩ := h; simp at herr
  rename_i wiped w6 h6
  simp at h
  obtain ⟨rfl, rfl⟩ := h
  obtain ⟨v1, e1, n1⟩ := ConvertToVersion_ok f newObj f.groupVersion w w1 nvr h1 hn
  obtain ⟨v2, e2, n2⟩ := ConvertToVersion_ok f liveObj f.groupVersion w1 w2 lvr h2
    (lt_of_lt_of_le hl e1.1)
  obtain ⟨v3, g3⟩ := ObjectToTyped_eq f nvr w2 w3 _ h3
  obtain ⟨v4, g4⟩ := ObjectToTyped_eq f lvr w3 w4 _ h4
  obtain ⟨v5, g5⟩ := UpdaterUpdate_eq f _ _ _ _ _ w4 w5 _ h5
  have g : w5.heap = w2.heap := by rw [g5, g4, g3]
  have e : w.heap.Extends w5.heap := by rw [g]; exact e1.trans e2
  have c1 := toVersioned_calls f newObj w
  have c2 := toVersioned_calls f liveObj w1
  have c3 := ObjectToTyped_calls f nvr w2
  have c4 := ObjectToTyped_calls f lvr w3
  have c5 := UpdaterUpdate_calls f liveT newT (x.GroupVersionString f.groupVersion)
    managed.Fields manager w4
  rw [h1] at c1
  rw [h2] at c2
  rw [h3] at c3
  rw [h4] at c4
  rw [h5] at c5
  simp at c1 c2 c3 c4 c5
  have c : w5.calls = w.calls ++ [Call.ConvertToVersion newObj f.groupVersion true,
      Call.ConvertToVersion liveObj f.groupVersion true, Call.ObjectToTyped nvr true,
      Call.ObjectToTyped lvr true,
      Call.UpdaterUpdate (x.GroupVersionString f.groupVersion) manager true] := by
    rw [c5, c4, c3, c2, c1]; simp
  refine ⟨w1.heap.read nvr, w2.heap.read lvr, newT, liveT, tv, mfE, wiped, v1, ?_, ?_, ?_, v5,
    rfl, ?_⟩
  · rw [← e1.read hl]; exact v2
  · rw [← e2.read n1]; exact v3
  · rw [← g3]; exact v4
  · rcases wipeIfPod_ok x f liveObj newObj _ _ _ _ w5 _ wiped h6 with
      ⟨hk, rfl, rfl⟩ | ⟨hk, prepared, wp, hp, hw, rfl⟩
    · left
      rw [e.read hn] at hk
      exact ⟨hk, rfl, _, c, by simp [Call.isWipeStep]⟩
    · right
      rw [e.read hn] at hk
      refine ⟨hk, prepared, ?_, hw, ?_⟩
      · have := preparedPatchTypedValue_ok x f liveObj newObj w5 wp prepared hp
          (lt_of_lt_of_le hl e.1) (lt_of_lt_of_le hn e.1)
        rw [e.read hl, e.read hn] at this
        exact this
      · obtain ⟨liveU, patchU, preparedV, hc⟩ :=
          preparedPatchTypedValue_ok_calls x f liveObj newObj w5 wp prepared hp
        refine ⟨[Call.ConvertToVersion newObj f.groupVersion true,
          Call.ConvertToVersion liveObj f.groupVersion true, Call.ObjectToTyped nvr true,
          Call.ObjectToTyped lvr true,
          Call.UpdaterUpdate (x.GroupVersionString f.groupVersion) manager true,
          Call.ConvertToVersion liveObj f.hubVersion true,
          Call.ConvertToVersion newObj f.hubVersion true,
          Call.PrepareForUpdate patchU liveU,
          Call.ConvertToVersion patchU f.groupVersion true,
          Call.ObjectToTyped preparedV true,
          Call.WipeManagedFields manager true], patchU, liveU, ?_, ?_⟩
        · simp [World.log, hc, c]
        · simp [Call.isWipeStep]

theorem Apply_ok (x : Externals C TV MF E) (f : structuredMergeManager C TV MF E)
    (liveObj patchObj : Ref) (managed : Managed MF T) (manager : String) (force : Bool)
    (w w' : World C) (res : Result MF T E)
    (h : Apply x f liveObj patchObj managed manager force w = (res, w')) (herr : res.err = none)
    (hl : liveObj < w.heap.next) (hp : patchObj < w.heap.next) :
    ∃ liveV patchT liveT tv mfE wiped,
      convertValue f (w.heap.read liveObj) f.groupVersion = .ok liveV ∧
      f.typeConverter.ObjectToTyped (w.heap.read patchObj) = .ok patchT ∧
      f.typeConverter.ObjectToTyped liveV = .ok liveT ∧
      f.updater.Apply liveT patchT (x.GroupVersionString f.groupVersion) managed.Fields manager
        force = .ok (tv, mfE) ∧
      res.managed = some (NewManaged wiped managed.Times) ∧
      WipePolicy x f liveObj patchObj managed manager liveT mfE wiped w w' := by
  unfold WipePolicy
  unfold Apply at h
  split at h
  · simp [Result.fail] at h; obtain ⟨rfl, rfl⟩ := h; simp at herr
  split at h
  · simp [Result.fail] at h; obtain ⟨rfl, rfl⟩ := h; simp at herr
  rename_i m w0 h0
  split at h
  · simp [Result.fail] at h; obtain ⟨rfl, rfl⟩ := h; simp at herr
  split at h
  · simp [Result.fail] at h; obtain ⟨rfl, rfl⟩ := h; simp at herr
  rename_i lvr w1 h1
  split at h
  · simp [Result.fail] at h; obtain ⟨rfl, rfl⟩ := h; simp at herr
  rename_i patchT w2 h2
  split at h
  · simp [Result.fail] at h; obtain ⟨rfl, rfl⟩ := h; simp at herr
  rename_i liveT w3 h3
  split at h
  · simp [Result.fail] at h; obtain ⟨rfl, rfl⟩ := h; simp at herr
  rename_i tv mfE w4 h4
  split at h
  · simp [Result.fail] at h; obtain ⟨rfl, rfl⟩ := h; simp at herr
  rename_i wiped w5 h5
  have g0 : w0.heap = w.heap ∧ w0.calls = w.calls ++ [Call.Accessor patchObj true] := by
    unfold Accessor at h0
    split at h0
    · simp at h0
    · simp [World.log] at h0
      obtain ⟨-, rfl⟩ := h0
      exact ⟨rfl, rfl⟩
  obtain ⟨v1, e1, n1⟩ := ConvertToVersion_ok f liveObj f.groupVersion w0 w1 lvr h1
    (by rw [g0.1]; exact hl)
  rw [g0.1] at v1 e1
  obtain ⟨v2, g2⟩ := ObjectToTyped_eq f patchObj w1 w2 _ h2
  obtain ⟨v3, g3⟩ := ObjectToTyped_eq f lvr w2 w3 _ h3
  obtain ⟨v4, g4⟩ := UpdaterApply_eq f _ _ _ _ _ _ w3 w4 _ h4
  have g : w4.heap = w1.heap := by rw [g4, g3, g2]
  have e : w.heap.Extends w4.heap := by rw [g]; exact e1
  have c1 := toVersioned_calls f liveObj w0
  have c2 := ObjectToTyped_calls f patchObj w1
  have c3 := ObjectToTyped_calls f lvr w2
  have c4 := UpdaterApply_calls f liveT patchT (x.GroupVersionString f.groupVersion)
    managed.Fields manager force w3
  rw [h1] at c1
  rw [h2] at c2
  rw [h3] at c3
  rw [h4] at c4
  simp at c1 c2 c3 c4
  have c : w4.calls = w.calls ++ [Call.Accessor patchObj true,
      Call.ConvertToVersion liveObj f.groupVersion true, Call.ObjectToTyped patchObj true,
      Call.ObjectToTyped lvr true,
      Call.UpdaterApply (x.GroupVersionString f.groupVersion) manager force true] := by
    rw [c4, c3, c2, c1, g0.2]; simp
  -- the calls made after the Pod block are not part of the wipe step
  have tail : ∃ lt, w'.calls = w5.calls ++ lt ∧ lt.filter Call.isWipeStep = [] ∧
      res.managed = some (NewManaged wiped managed.Times) := by
    split at h
    · simp at h
      obtain ⟨rfl, rfl⟩ := h
      exact ⟨[], by simp, rfl, rfl⟩
    rename_i newT
    split at h
    · simp [Result.fail] at h; obtain ⟨rfl, rfl⟩ := h; simp at herr
    rename_i newObj w6 h6
    split at h
    · simp [Result.fail] at h; obtain ⟨rfl, rfl⟩ := h; simp at herr
    rename_i newObjVersioned w7 h7
    split at h
    · simp [Result.fail] at h; obtain ⟨rfl, rfl⟩ := h; simp at herr
    rename_i newObjUnversioned w8 h8
    simp at h
    obtain ⟨rfl, rfl⟩ := h
    have d1 := TypedToObject_calls f newT w5
    have d2 := toVersioned_calls f newObj w6
    have d3 := toUnversioned_calls f newObjVersioned (Default f newObjVersioned w7)
    rw [h6] at d1
    rw [h7] at d2
    rw [h8] at d3
    simp [Default_calls] at d1 d2 d3
    refine ⟨[Call.TypedToObject true, Call.ConvertToVersion newObj f.groupVersion true,
      Call.Default newObjVersioned, Call.ConvertToVersion newObjVersioned f.hubVersion true],
      ?_, ?_, rfl⟩
    · rw [d3, d2, d1]; simp
    · simp [Call.isWipeStep]
  obtain ⟨lt, ht, hft, hm⟩ := tail
  refine ⟨w1.heap.read lvr, patchT, liveT, tv, mfE, wiped, v1, ?_, ?_, v4, hm, ?_⟩
  · rw [← e1.read hp]; exact v2
  · rw [← g2]; exact v3
  · rcases wipeIfPod_ok x f liveObj patchObj _ _ _ _ w4 _ wiped h5 with
      ⟨hk, rfl, rfl⟩ | ⟨hk, prepared, wp, hpp, hw, rfl⟩
    · left
      rw [e.read hp] at hk
      refine ⟨hk, rfl, [Call.Accessor patchObj true,
        Call.ConvertToVersion liveObj f.groupVersion true, Call.ObjectToTyped patchObj true,
        Call.ObjectToTyped lvr true,
        Call.UpdaterApply (x.GroupVersionString f.groupVersion) manager force true] ++ lt,
        ?_, ?_⟩
      · rw [ht, c, List.append_assoc]
      · simp [Call.isWipeStep, hft]
    · right
      rw [e.read hp] at hk
      refine ⟨hk, prepared, ?_, hw, ?_⟩
      · have := preparedPatchTypedValue_ok x f liveObj patchObj w4 wp prepared hpp
          (lt_of_lt_of_le hl e.1) (lt_of_lt_of_le hp e.1)
        rw [e.read hl, e.read hp] at this
        exact this
      · obtain ⟨liveU, patchU, preparedV, hc⟩ :=
          preparedPatchTypedValue_ok_calls x f liveObj patchObj w4 wp prepared hpp
        refine ⟨[Call.Accessor patchObj true,
          Call.ConvertToVersion liveObj f.groupVersion true, Call.ObjectToTyped patchObj true,
          Call.ObjectToTyped lvr true,
          Call.UpdaterApply (x.GroupVersionString f.groupVersion) manager force true,
          Call.ConvertToVersion liveObj f.hubVersion true,
          Call.ConvertToVersion patchObj f.hubVersion true,
          Call.PrepareForUpdate patchU liveU,
          Call.ConvertToVersion patchU f.groupVersion true,
          Call.ObjectToTyped preparedV true,
          Call.WipeManagedFields manager true] ++ lt, patchU, liveU, ?_, ?_⟩
        · rw [ht]
          simp [World.log, hc, c]
        · simp [Call.isWipeStep, hft]

theorem preparedPatchTypedValue_calls (x : Externals C TV MF E)
    (f : structuredMergeManager C TV MF E) (liveObj patchObj : Ref) (w : World C) :
    ∃ l, (preparedPatchTypedValue x f liveObj patchObj w).2.calls = w.calls ++ l ∧
      (∀ c ∈ l, c.failed = true →
        (preparedPatchTypedValue x f liveObj patchObj w).1.isOk = false) := by
  unfold preparedPatchTypedValue
  repeat' split
  all_goals
    simp_all [pair_eq_iff, toVersioned_calls, toUnversioned_calls, ObjectToTyped_calls,
      PrepareForUpdate_calls]

theorem wipeIfPod_calls (x : Externals C TV MF E) (f : structuredMergeManager C TV MF E)
    (liveObj obj : Ref) (liveManagedFields managedFields : MF) (manager : String)
    (liveObjTyped : TV) (w : World C) :
    ∃ l, (wipeIfPod x f liveObj obj liveManagedFields managedFields manager liveObjTyped w).2.calls
        = w.calls ++ l ∧
      (∀ c ∈ l, c.failed = true →
        (wipeIfPod x f liveObj obj liveManagedFields managedFields manager liveObjTyped w).1.isOk
          = false) := by
  unfold wipeIfPod
  split
  · obtain ⟨l, hl, hf⟩ := preparedPatchTypedValue_calls x f liveObj obj w
    split
    · refine ⟨l, ?_, ?_⟩ <;> simp_all [pair_eq_iff]
    · split
      · refine ⟨l ++ [Call.WipeManagedFields manager false], ?_, ?_⟩ <;>
          simp_all [pair_eq_iff, WipeManagedFields_calls]
      · refine ⟨l ++ [Call.WipeManagedFields manager true], ?_, ?_⟩ <;>
          simp_all [pair_eq_iff, WipeManagedFields_calls]
        rintro c (hc | rfl)
        · exact hf c hc
        · rfl
  · exact ⟨[], by simp⟩

theorem wipeIfPod_error_shape (x : Externals C TV MF E) (f : structuredMergeManager C TV MF E)
    (liveObj obj : Ref) (liveManagedFields managedFields : MF) (manager : String)
    (liveObjTyped : TV) (w w' : World C) (err : GoError E)
    (h : wipeIfPod x f liveObj obj liveManagedFields managedFields manager liveObjTyped w =
      (.error err, w')) :
    ∃ format e, err = .Errorf format e := by
  unfold wipeIfPod at h
  split at h
  · split at h
    · simp at h; exact ⟨_, _, h.1.symm⟩
    · split at h
      · simp at h; exact ⟨_, _, h.1.symm⟩
      · simp at h
  · simp at h

theorem Update_calls (x : Externals C TV MF E) (f : structuredMergeManager C TV MF E)
    (liveObj newObj : Ref) (managed : Managed MF T) (manager : String) (w : World C) :
    ∃ l, (Update x f liveObj newObj managed manager w).2.calls = w.calls ++ l ∧
      (∀ c ∈ l, c.failed = true → (Update x f liveObj newObj managed manager w).1.err ≠ none) := by
  unfold Update
  split
  · simp_all [pair_eq_iff, toVersioned_calls, Result.fail]
  split
  · simp_all [pair_eq_iff, toVersioned_calls, Result.fail]
  split
  · simp_all [pair_eq_iff, toVersioned_calls, ObjectToTyped_calls, Result.fail]
  split
  · simp_all [pair_eq_iff, toVersioned_calls, ObjectToTyped_calls, Result.fail]
  rename_i liveObjTyped w4 h4
  split
  · simp_all [pair_eq_iff, toVersioned_calls, ObjectToTyped_calls, UpdaterUpdate_calls,
      Result.fail]
  rename_i tv managedFields w5 h5
  obtain ⟨l, hl, hf⟩ :=
    wipeIfPod_calls x f liveObj newObj managed.Fields managedFields manager liveObjTyped w5
  split
  · refine ⟨w5.calls.drop w.calls.length ++ l, ?_, ?_⟩ <;>
      simp_all [pair_eq_iff, toVersioned_calls, ObjectToTyped_calls, UpdaterUpdate_calls,
        Result.fail]
  · refine ⟨w5.calls.drop w.calls.length ++ l, ?_, ?_⟩ <;>
      simp_all [pair_eq_iff, toVersioned_calls, ObjectToTyped_calls, UpdaterUpdate_calls,
        Result.fail]

theorem Apply_calls (x : Externals C TV MF E) (f : structuredMergeManager C TV MF E)
    (liveObj patchObj : Ref) (managed : Managed MF T) (manager : String) (force : Bool)
    (w : World C) :
    ∃ l, (Apply x f liveObj patchObj managed manager force w).2.calls = w.calls ++ l ∧
      (∀ c ∈ l, c.failed = true →
        (Apply x f liveObj patchObj managed manager force w).1.err ≠ none) ∧
      ((w.heap.read patchObj).gvk.GroupVersion = f.groupVersion →
        ∃ ok l', l = Call.Accessor patchObj ok :: l') := by
  unfold Apply
  split
  · rename_i hgv
    exact ⟨[], by simp, by simp, fun h => absurd h (by simpa using hgv)⟩
  split
  · simp_all [pair_eq_iff, Accessor_calls, Result.fail]
  split
  · simp_all [pair_eq_iff, Accessor_calls, Result.fail]
  split
  · simp_all [pair_eq_iff, Accessor_calls, toVersioned_calls, Result.fail]
  split
  · simp_all [pair_eq_iff, Accessor_calls, toVersioned_calls, ObjectToTyped_calls, Result.fail]
  split
  · simp_all [pair_eq_iff, Accessor_calls, toVersioned_calls, ObjectToTyped_calls, Result.fail]
  rename_i liveObjTyped w4 h4
  split
  · simp_all [pair_eq_iff, Accessor_calls, toVersioned_calls, ObjectToTyped_calls,
      UpdaterApply_calls, Result.fail]
  rename_i tv managedFields w5 h5
  obtain ⟨l, hl, hf⟩ :=
    wipeIfPod_calls x f liveObj patchObj managed.Fields managedFields manager liveObjTyped w5
  split
  · refine ⟨w5.calls.drop w.calls.length ++ l, ?_, ?_, ?_⟩ <;>
      simp_all [pair_eq_iff, Accessor_calls, toVersioned_calls, ObjectToTyped_calls,
        UpdaterApply_calls, Result.fail]
  rename_i mf' w6 h6
  have h6c : w6.calls = w.calls ++ (w5.calls.drop w.calls.length ++ l) := by
    simp_all [pair_eq_iff, Accessor_calls, toVersioned_calls, ObjectToTyped_calls,
      UpdaterApply_calls]
  have h6f : ∀ c ∈ w5.calls.drop w.calls.length ++ l, c.failed = false := by
    simp_all [pair_eq_iff, Accessor_calls, toVersioned_calls, ObjectToTyped_calls,
      UpdaterApply_calls]
  have h6a : ∃ ok l', w5.calls.drop w.calls.length ++ l = Call.Accessor patchObj ok :: l' := by
    simp_all [pair_eq_iff, Accessor_calls, toVersioned_calls, ObjectToTyped_calls,
      UpdaterApply_calls]
  generalize w5.calls.drop w.calls.length ++ l = l6 at h6c h6f h6a
  clear * - h6c h6f h6a
  split
  · exact ⟨l6, h6c, by simpa using h6f, fun _ => h6a⟩
  split
  · refine ⟨l6 ++ [Call.TypedToObject false], ?_, ?_, ?_⟩
    · simp_all [pair_eq_iff, TypedToObject_calls]
    · simp [Result.fail]
    · obtain ⟨ok, l', rfl⟩ := h6a
      exact fun _ => ⟨ok, _, rfl⟩
  rename_i newObj w7 h7
  split
  · refine ⟨l6 ++ [Call.TypedToObject true, Call.ConvertToVersion newObj f.groupVersion false],
      ?_, ?_, ?_⟩
    · simp_all [pair_eq_iff, TypedToObject_calls, toVersioned_calls]
    · simp [Result.fail]
    · obtain ⟨ok, l', rfl⟩ := h6a
      exact fun _ => ⟨ok, _, rfl⟩
  rename_i newObjVersioned w8 h8
  split
  · refine ⟨l6 ++ [Call.TypedToObject true, Call.ConvertToVersion newObj f.groupVersion true,
      Call.Default newObjVersioned, Call.ConvertToVersion newObjVersioned f.hubVersion false],
      ?_, ?_, ?_⟩
    · simp_all [pair_eq_iff, TypedToObject_calls, toVersioned_calls, toUnversioned_calls,
        Default_calls]
    · simp [Result.fail]
    · obtain ⟨ok, l', rfl⟩ := h6a
      exact fun _ => ⟨ok, _, rfl⟩
  · refine ⟨l6 ++ [Call.TypedToObject true, Call.ConvertToVersion newObj f.groupVersion true,
      Call.Default newObjVersioned, Call.ConvertToVersion newObjVersioned f.hubVersion true],
      ?_, ?_, ?_⟩
    · simp_all [pair_eq_iff, TypedToObject_calls, toVersioned_calls, toUnversioned_calls,
        Default_calls]
    · intro c hc
      rcases List.mem_append.mp hc with hc | hc
      · simp [h6f c hc]
      · simp at hc
        rcases hc with rfl | rfl | rfl | rfl <;> simp
    · obtain ⟨ok, l', rfl⟩ := h6a
      exact fun _ => ⟨ok, _, rfl⟩

theorem incorrectVersionMessage_ne (x : Externals C TV MF E) (pv gv : GroupVersion) :
    incorrectVersionMessage x pv gv ≠ "metadata.managedFields must be nil" := by
  intro h
  have h2 := congrArg String.data h
  simp [incorrectVersionMessage, String.data_append] at h2

theorem Apply_badRequest_origin (x : Externals C TV MF E)
    (f : structuredMergeManager C TV MF E) (liveObj patchObj : Ref) (managed : Managed MF T)
    (manager : String) (force : Bool) (w : World C) (msg : String)
    (h : (Apply x f liveObj patchObj managed manager force w).1.err =
      some (.NewBadRequest msg)) :
    ((w.heap.read patchObj).gvk.GroupVersion ≠ f.groupVersion ∧
      msg = incorrectVersionMessage x (w.heap.read patchObj).gvk.GroupVersion f.groupVersion) ∨
    ((w.heap.read patchObj).gvk.GroupVersion = f.groupVersion ∧
      (∃ m, (w.heap.read patchObj).objectMeta = some m ∧ m.ManagedFields ≠ none) ∧
      msg = "metadata.managedFields must be nil") := by
  unfold Apply at h
  split at h
  · rename_i hgv
    left
    simp [Result.fail] at h
    exact ⟨by simpa using hgv, h.symm⟩
  rename_i hgv
  right
  refine ⟨by simpa using hgv, ?_⟩
  split at h
  · simp [Result.fail] at h
  rename_i m w1 h1
  split at h
  · rename_i hm
    simp [Result.fail] at h
    refine ⟨⟨m, ?_, hm⟩, h.symm⟩
    unfold Accessor at h1
    split at h1
    · simp at h1
    · rename_i m' hm'
      simp at h1
      rw [hm', h1.1]
  repeat' split at h
  all_goals try (simp [Result.fail] at h)
  rename_i werr hq
  obtain ⟨fmt, e, rfl⟩ := wipeIfPod_error_shape _ _ _ _ _ _ _ _ _ _ _ hq
  simp at h

/-- C1: when the group-version of the patch differs from the configured one, `Apply`
returns `nil, nil` and the bad-request (HTTP 400) error with the "Incorrect version
specified in apply patch" message, whatever the other arguments are, and the state is
untouched (no capability has been called); when the two group-versions are equal,
`Apply` goes on to the accessor call and no such error is returned. -/
theorem Apply_version_check (x : Externals C TV MF E) (f : structuredMergeManager C TV MF E)
    (liveObj patchObj : Ref) (managed : Managed MF T) (manager : String) (force : Bool)
    (w : World C) :
    ((w.heap.read patchObj).gvk.GroupVersion ≠ f.groupVersion →
      Apply x f liveObj patchObj managed manager force w =
        (⟨none, none, some (.NewBadRequest (incorrectVersionMessage x
          (w.heap.read patchObj).gvk.GroupVersion f.groupVersion))⟩, w) ∧
      (GoError.NewBadRequest (incorrectVersionMessage x
          (w.heap.read patchObj).gvk.GroupVersion f.groupVersion) : GoError E).Code = some 400) ∧
    ((w.heap.read patchObj).gvk.GroupVersion = f.groupVersion →
      (∃ ok, w.calls ++ [Call.Accessor patchObj ok] <+:
        (Apply x f liveObj patchObj managed manager force w).2.calls) ∧
      ∀ pv gv, (Apply x f liveObj patchObj managed manager force w).1.err ≠
        some (.NewBadRequest (incorrectVersionMessage x pv gv))) := by
  constructor
  · intro h
    simp [Apply, h, Result.fail, GoError.Code]
  · intro h
    constructor
    · obtain ⟨l, hl, -, ha⟩ := Apply_calls x f liveObj patchObj managed manager force w
      obtain ⟨ok, l', rfl⟩ := ha h
      refine ⟨ok, ?_⟩
      rw [hl]
      exact ⟨l', by simp⟩
    · intro pv gv herr
      rcases Apply_badRequest_origin x f liveObj patchObj managed manager force w _ herr with
        ⟨hne, -⟩ | ⟨-, -, hmsg⟩
      · exact hne h
      · exact incorrectVersionMessage_ne x pv gv hmsg

/-- Witness for C1: a patch of version `apps/v2` against a manager configured for
`apps/v1` is rejected with the bad-request error, the state untouched; a patch of
version `apps/v1` is not. -/
theorem Apply_version_check_witness :
    ((sampleWorld podV2).heap.read 1).gvk.GroupVersion ≠
        (sampleManager fakeObjectConvertor).groupVersion ∧
      (Apply sampleExternals (sampleManager fakeObjectConvertor) 0 1 sampleManaged "test" false
          (sampleWorld podV2) =
        (⟨none, none, some (.NewBadRequest (incorrectVersionMessage sampleExternals
          ⟨"apps", "v2"⟩ ⟨"apps", "v1"⟩))⟩, sampleWorld podV2)) ∧
      incorrectVersionMessage sampleExternals ⟨"apps", "v2"⟩ ⟨"apps", "v1"⟩ =
        "Incorrect version specified in apply patch. Specified patch version: apps/v2, expected: apps/v1" ∧
      ((sampleWorld (pod "test-image" "")).heap.read 1).gvk.GroupVersion =
        (sampleManager fakeObjectConvertor).groupVersion ∧
      (∀ pv gv, (Apply sampleExternals (sampleManager fakeObjectConvertor) 0 1 sampleManaged
          "test" false (sampleWorld (pod "test-image" ""))).1.err ≠
        some (.NewBadRequest (incorrectVersionMessage sampleExternals pv gv))) :=
  ⟨by decide,
    ((Apply_version_check sampleExternals (sampleManager fakeObjectConvertor) 0 1 sampleManaged
      "test" false (sampleWorld podV2)).1 (by decide)).1,
    by decide, by decide,
    ((Apply_version_check sampleExternals (sampleManager fakeObjectConvertor) 0 1 sampleManaged
      "test" false (sampleWorld (pod "test-image" ""))).2 (by decide)).2⟩

/-- C2: when the patch has the configured group-version and its metadata is
accessible, a patch carrying a non-nil `managedFields` (an empty list included) makes
`Apply` return `nil, nil` and the bad-request error "metadata.managedFields must be
nil", the accessor call being the only call made (no converter, no merge engine); with
a nil `managedFields` that error is not returned. -/
theorem Apply_managedFields_must_be_nil (x : Externals C TV MF E)
    (f : structuredMergeManager C TV MF E) (liveObj patchObj : Ref) (managed : Managed MF T)
    (manager : String) (force : Bool) (w : World C) (m : ObjectMeta)
    (hgv : (w.heap.read patchObj).gvk.GroupVersion = f.groupVersion)
    (hmeta : (w.heap.read patchObj).objectMeta = some m) :
    (m.ManagedFields ≠ none →
      Apply x f liveObj patchObj managed manager force w =
        (⟨none, none, some (.NewBadRequest "metadata.managedFields must be nil")⟩,
          { heap := w.heap, calls := w.calls ++ [Call.Accessor patchObj true] }) ∧
      (GoError.NewBadRequest "metadata.managedFields must be nil" : GoError E).Code =
        some 400) ∧
    (m.ManagedFields = none →
      (Apply x f liveObj patchObj managed manager force w).1.err ≠
        some (.NewBadRequest "metadata.managedFields must be nil")) := by
  constructor
  · intro h
    simp [Apply, hgv, Accessor, hmeta, h, Result.fail, GoError.Code, World.log]
  · intro h herr
    rcases Apply_badRequest_origin x f liveObj patchObj managed manager force w _ herr with
      ⟨hne, -⟩ | ⟨-, ⟨m', hm', hne⟩, -⟩
    · exact hne hgv
    · rw [hmeta] at hm'
      cases hm'
      exact hne h

/-- Witness for C2: a patch whose `managedFields` is the empty list is rejected after
the accessor call alone; a patch with nil `managedFields` is not rejected that way. -/
theorem Apply_managedFields_must_be_nil_witness :
    ((sampleWorld podWithManagedFields).heap.read 1).gvk.GroupVersion =
        (sampleManager fakeObjectConvertor).groupVersion ∧
      ((sampleWorld podWithManagedFields).heap.read 1).objectMeta = some ⟨some [], ""⟩ ∧
      (Apply sampleExternals (sampleManager fakeObjectConvertor) 0 1 sampleManaged "test" false
          (sampleWorld podWithManagedFields) =
        (⟨none, none, some (.NewBadRequest "metadata.managedFields must be nil")⟩,
          { heap := (sampleWorld podWithManagedFields).heap,
            calls := (sampleWorld podWithManagedFields).calls ++ [Call.Accessor 1 true] })) ∧
      (Apply sampleExternals (sampleManager fakeObjectConvertor) 0 1 sampleManaged "test" false
          (sampleWorld (pod "test-image" ""))).1.err ≠
        some (.NewBadRequest "metadata.managedFields must be nil") :=
  ⟨by decide, rfl,
    ((Apply_managedFields_must_be_nil sampleExternals (sampleManager fakeObjectConvertor) 0 1
      sampleManaged "test" false (sampleWorld podWithManagedFields) ⟨some [], ""⟩ (by decide)
      rfl).1 (by decide)).1,
    (Apply_managedFields_must_be_nil sampleExternals (sampleManager fakeObjectConvertor) 0 1
      sampleManaged "test" false (sampleWorld (pod "test-image" "")) ⟨none, ""⟩ (by decide)
      rfl).2 rfl⟩

/-- C3: when the version and managedFields checks pass and the conversions succeed,
an error `e` reported by the merge engine's apply operation is returned by `Apply` as
it is (`nil, nil, e`), and the engine call is the last call made: no wipe, no
typed-to-object conversion, no defaulting. -/
theorem Apply_engine_error_verbatim (x : Externals C TV MF E)
    (f : structuredMergeManager C TV MF E) (liveObj patchObj : Ref) (managed : Managed MF T)
    (manager : String) (force : Bool) (w w1 : World C) (m : ObjectMeta)
    (liveObjVersioned : Ref) (patchObjTyped liveObjTyped : TV) (e : E)
    (hgv : (w.heap.read patchObj).gvk.GroupVersion = f.groupVersion)
    (hmeta : (w.heap.read patchObj).objectMeta = some m)
    (hnil : m.ManagedFields = none)
    (hlive : toVersioned f liveObj (w.log (.Accessor patchObj true)) =
      (.ok liveObjVersioned, w1))
    (hpatchT : f.typeConverter.ObjectToTyped (w1.heap.read patchObj) = .ok patchObjTyped)
    (hliveT : f.typeConverter.ObjectToTyped (w1.heap.read liveObjVersioned) = .ok liveObjTyped)
    (hengine : f.updater.Apply liveObjTyped patchObjTyped (x.GroupVersionString f.groupVersion)
      managed.Fields manager force = .error e) :
    Apply x f liveObj patchObj managed manager force w =
      (⟨none, none, some (.ext e)⟩,
        { heap := w1.heap,
          calls := w.calls ++ [Call.Accessor patchObj true,
            Call.ConvertToVersion liveObj f.groupVersion true,
            Call.ObjectToTyped patchObj true,
            Call.ObjectToTyped liveObjVersioned true,
            Call.UpdaterApply (x.GroupVersionString f.groupVersion) manager force false] }) := by
  have hw1 : w1.calls = w.calls ++ [Call.Accessor patchObj true,
      Call.ConvertToVersion liveObj f.groupVersion true] := by
    have := toVersioned_calls f liveObj (w.log (.Accessor patchObj true))
    rw [hlive] at this
    simpa [World.log] using this
  simp only [World.log] at hlive
  simp [Apply, hgv, Accessor, hmeta, hnil, hlive, ObjectToTyped, hpatchT, hliveT, UpdaterApply,
    hengine, Result.fail, World.log, hw1]

/-- Witness for C3: the manager "other" owns `spec.image`; "kubectl" applies a patch
setting it without force; the conflict reported by the engine is what `Apply` returns,
and the engine call is the last call. -/
theorem Apply_engine_error_verbatim_witness :
    Apply sampleExternals (sampleManager fakeObjectConvertor) 0 1 ownedByOther "kubectl" false
        (sampleWorld (pod "test-image" "")) =
      (⟨none, none, some (.ext "conflict")⟩,
        { heap := (sampleWorld (pod "test-image" "")).heap,
          calls := [Call.Accessor 1 true,
            Call.ConvertToVersion 0 ⟨"apps", "v1"⟩ true,
            Call.ObjectToTyped 1 true,
            Call.ObjectToTyped 0 true,
            Call.UpdaterApply "apps/v1" "kubectl" false false] }) :=
  Apply_engine_error_verbatim sampleExternals (sampleManager fakeObjectConvertor) 0 1
    ownedByOther "kubectl" false (sampleWorld (pod "test-image" ""))
    { heap := (sampleWorld (pod "test-image" "")).heap,
      calls := [Call.Accessor 1 true, Call.ConvertToVersion 0 ⟨"apps", "v1"⟩ true] }
    ⟨none, ""⟩ 0 ⟨"test-image", ""⟩ ⟨"live-image", "Running"⟩ "conflict"
    (by decide) rfl rfl rfl rfl rfl rfl

/-! ### What `Update` leaves untouched

The returned pointer and the timestamps are the caller's in every successful `Update`,
and for a kind other than "Pod" no object allocated before the call is written to. -/

theorem ConvertToVersion_extends_of_eq (f : structuredMergeManager C TV MF E) (obj : Ref)
    (gv : GroupVersion) (w w' : World C) (r : Except E Ref)
    (h : ConvertToVersion f obj gv w = (r, w')) : w.heap.Extends w'.heap := by
  have := ConvertToVersion_extends f obj gv w
  rw [h] at this
  exact this

theorem Update_success_frame (x : Externals C TV MF E) (f : structuredMergeManager C TV MF E)
    (liveObj newObj : Ref) (managed : Managed MF T) (manager : String) (w : World C)
    (h : (Update x f liveObj newObj managed manager w).1.err = none) :
    (Update x f liveObj newObj managed manager w).1.obj = some newObj ∧
      ∃ fields, (Update x f liveObj newObj managed manager w).1.managed =
        some (NewManaged fields managed.Times) := by
  unfold Update at h ⊢
  repeat' split
  all_goals first
    | exact ⟨rfl, _, rfl⟩
    | simp_all [Result.fail]

theorem Update_nonPod_keeps_objects (x : Externals C TV MF E)
    (f : structuredMergeManager C TV MF E) (liveObj newObj : Ref) (managed : Managed MF T)
    (manager : String) (w : World C) (hk : (w.heap.read newObj).gvk.Kind ≠ "Pod")
    (hn : newObj < w.heap.next) :
    w.heap.Extends (Update x f liveObj newObj managed manager w).2.heap := by
  unfold Update
  split
  · rename_i h1
    exact ConvertToVersion_extends_of_eq _ _ _ _ _ _ h1
  rename_i nvr w1 h1
  have e1 := ConvertToVersion_extends_of_eq _ _ _ _ _ _ h1
  split
  · rename_i h2
    exact e1.trans (ConvertToVersion_extends_of_eq _ _ _ _ _ _ h2)
  rename_i lvr w2 h2
  have e2 := e1.trans (ConvertToVersion_extends_of_eq _ _ _ _ _ _ h2)
  split
  · rename_i h3
    rw [(ObjectToTyped_eq _ _ _ _ _ h3).2]
    exact e2
  rename_i newT w3 h3
  have g3 := (ObjectToTyped_eq _ _ _ _ _ h3).2
  split
  · rename_i h4
    rw [(ObjectToTyped_eq _ _ _ _ _ h4).2, g3]
    exact e2
  rename_i liveT w4 h4
  have g4 := (ObjectToTyped_eq _ _ _ _ _ h4).2
  split
  · rename_i h5
    rw [(UpdaterUpdate_eq _ _ _ _ _ _ _ _ _ h5).2, g4, g3]
    exact e2
  rename_i tv mfE w5 h5
  have g5 := (UpdaterUpdate_eq _ _ _ _ _ _ _ _ _ h5).2
  have e5 : w.heap.Extends w5.heap := by rw [g5, g4, g3]; exact e2
  have hk5 : (w5.heap.read newObj).gvk.Kind ≠ "Pod" := by rw [e5.read hn]; exact hk
  have hw : wipeIfPod x f liveObj newObj managed.Fields mfE manager liveT w5 = (.ok mfE, w5) := by
    simp [wipeIfPod, hk5]
  rw [hw]
  exact e5

/-- C4 (the code at a failing input): `Update` of a Pod with the object converter of
`patch_test.go`, which returns the pointer it is given.  The call succeeds and returns
the caller's `newObj` (reference `1`), but the object `newObj` points to has been
rewritten: its status phase was "testing" before the call and is the live object's
"Running" after it.  With a converter that copies, the same call leaves it as it was. -/
theorem Update_Pod_overwrites_newObj :
    (Update sampleExternals (sampleManager fakeObjectConvertor) 0 1 sampleManaged "kubectl"
        (sampleWorld (pod "test-image" "testing"))).1.obj = some 1 ∧
      (Update sampleExternals (sampleManager fakeObjectConvertor) 0 1 sampleManaged "kubectl"
        (sampleWorld (pod "test-image" "testing"))).1.err = none ∧
      ((sampleWorld (pod "test-image" "testing")).heap.read 1).content =
        ⟨"test-image", "testing"⟩ ∧
      ((Update sampleExternals (sampleManager fakeObjectConvertor) 0 1 sampleManaged "kubectl"
        (sampleWorld (pod "test-image" "testing"))).2.heap.read 1).content =
        ⟨"test-image", "Running"⟩ ∧
      ((Update sampleExternals (sampleManager copyingObjectConvertor) 0 1 sampleManaged
        "kubectl" (sampleWorld (pod "test-image" "testing"))).2.heap.read 1).content =
        ⟨"test-image", "testing"⟩ := by
  decide

/-- C5: atomicity on failure.  For every `Update` and every `Apply` call, a non-nil
returned error comes with a nil object and a nil `Managed`; and every call to a consumed
capability that reported a failure (an entry of the call log with `failed`) makes the
call return a non-nil error. -/
theorem Update_Apply_failure_atomic (x : Externals C TV MF E)
    (f : structuredMergeManager C TV MF E) (liveObj obj : Ref) (managed : Managed MF T)
    (manager : String) (force : Bool) (w : World C) :
    (((Update x f liveObj obj managed manager w).1.err ≠ none →
        (Update x f liveObj obj managed manager w).1.obj = none ∧
        (Update x f liveObj obj managed manager w).1.managed = none) ∧
      ∃ l, (Update x f liveObj obj managed manager w).2.calls = w.calls ++ l ∧
        ∀ c ∈ l, c.failed = true → (Update x f liveObj obj managed manager w).1.err ≠ none) ∧
    (((Apply x f liveObj obj managed manager force w).1.err ≠ none →
        (Apply x f liveObj obj managed manager force w).1.obj = none ∧
        (Apply x f liveObj obj managed manager force w).1.managed = none) ∧
      ∃ l, (Apply x f liveObj obj managed manager force w).2.calls = w.calls ++ l ∧
        ∀ c ∈ l, c.failed = true →
          (Apply x f liveObj obj managed manager force w).1.err ≠ none) := by
  refine ⟨⟨?_, Update_calls x f liveObj obj managed manager w⟩, ⟨?_, ?_⟩⟩
  · unfold Update
    repeat' split
    all_goals simp [Result.fail]
  · unfold Apply
    repeat' split
    all_goals simp [Result.fail]
  · obtain ⟨l, hl, hf, -⟩ := Apply_calls x f liveObj obj managed manager force w
    exact ⟨l, hl, hf⟩

/-- Witness for C5: the conflict of the C3 witness: the engine call is logged as
failed, the error is non-nil, object and `Managed` are nil. -/
theorem Update_Apply_failure_atomic_witness :
    (Apply sampleExternals (sampleManager fakeObjectConvertor) 0 1 ownedByOther "kubectl" false
        (sampleWorld (pod "test-image" ""))).1.err ≠ none ∧
      (Apply sampleExternals (sampleManager fakeObjectConvertor) 0 1 ownedByOther "kubectl" false
        (sampleWorld (pod "test-image" ""))).1.obj = none ∧
      (Apply sampleExternals (sampleManager fakeObjectConvertor) 0 1 ownedByOther "kubectl" false
        (sampleWorld (pod "test-image" ""))).1.managed = none :=
  ⟨by decide,
    (Update_Apply_failure_atomic sampleExternals (sampleManager fakeObjectConvertor) 0 1
      ownedByOther "kubectl" false (sampleWorld (pod "test-image" ""))).2.1 (by decide)⟩

/-- C6: when the checks pass, the conversions succeed, the merge engine's apply
operation succeeds with no merged object (`nil`) and the Pod block succeeds, `Apply`
returns no object, no error and a `Managed` holding the updated ownership mapping (the
engine's mapping for a kind other than "Pod", the wiped mapping for "Pod") with the
caller's timestamps; the state it leaves is the one left by the Pod block, whose log is
given in full: no typed-to-object conversion, no conversion of a result, no defaulting. -/
theorem Apply_no_merged_object (x : Externals C TV MF E)
    (f : structuredMergeManager C TV MF E) (liveObj patchObj : Ref) (managed : Managed MF T)
    (manager : String) (force : Bool) (w w1 w3 : World C) (m : ObjectMeta)
    (liveObjVersioned : Ref) (patchObjTyped liveObjTyped : TV) (managedFields wiped : MF)
    (hp : patchObj < w.heap.next)
    (hgv : (w.heap.read patchObj).gvk.GroupVersion = f.groupVersion)
    (hmeta : (w.heap.read patchObj).objectMeta = some m)
    (hnil : m.ManagedFields = none)
    (hlive : toVersioned f liveObj (w.log (.Accessor patchObj true)) =
      (.ok liveObjVersioned, w1))
    (hpatchT : f.typeConverter.ObjectToTyped (w1.heap.read patchObj) = .ok patchObjTyped)
    (hliveT : f.typeConverter.ObjectToTyped (w1.heap.read liveObjVersioned) = .ok liveObjTyped)
    (hengine : f.updater.Apply liveObjTyped patchObjTyped (x.GroupVersionString f.groupVersion)
      managed.Fields manager force = .ok (none, managedFields))
    (hwipe : wipeIfPod x f liveObj patchObj managed.Fields managedFields manager liveObjTyped
      { heap := w1.heap,
        calls := w.calls ++ [Call.Accessor patchObj true,
          Call.ConvertToVersion liveObj f.groupVersion true,
          Call.ObjectToTyped patchObj true,
          Call.ObjectToTyped liveObjVersioned true,
          Call.UpdaterApply (x.GroupVersionString f.groupVersion) manager force true] } =
      (.ok wiped, w3)) :
    Apply x f liveObj patchObj managed manager force w =
      (⟨none, some (NewManaged wiped managed.Times), none⟩, w3) ∧
    ((w.heap.read patchObj).gvk.Kind ≠ "Pod" →
      wiped = managedFields ∧
      w3.calls = w.calls ++ [Call.Accessor patchObj true,
        Call.ConvertToVersion liveObj f.groupVersion true,
        Call.ObjectToTyped patchObj true,
        Call.ObjectToTyped liveObjVersioned true,
        Call.UpdaterApply (x.GroupVersionString f.groupVersion) manager force true]) ∧
    ((w.heap.read patchObj).gvk.Kind = "Pod" →
      ∃ prepared liveU patchU preparedV,
        x.WipeManagedFields managed.Fields managedFields manager liveObjTyped prepared =
          .ok wiped ∧
        w3.calls = w.calls ++ [Call.Accessor patchObj true,
          Call.ConvertToVersion liveObj f.groupVersion true,
          Call.ObjectToTyped patchObj true,
          Call.ObjectToTyped liveObjVersioned true,
          Call.UpdaterApply (x.GroupVersionString f.groupVersion) manager force true,
          Call.ConvertToVersion liveObj f.hubVersion true,
          Call.ConvertToVersion patchObj f.hubVersion true,
          Call.PrepareForUpdate patchU liveU,
          Call.ConvertToVersion patchU f.groupVersion true,
          Call.ObjectToTyped preparedV true,
          Call.WipeManagedFields manager true]) := by
  have hw1 : w1.calls = w.calls ++ [Call.Accessor patchObj true,
      Call.ConvertToVersion liveObj f.groupVersion true] := by
    have := toVersioned_calls f liveObj (w.log (.Accessor patchObj true))
    rw [hlive] at this
    simpa [World.log] using this
  have he : w.heap.Extends w1.heap := by
    have := ConvertToVersion_extends f liveObj f.groupVersion (w.log (.Accessor patchObj true))
    unfold toVersioned at hlive
    rw [hlive] at this
    exact this
  refine ⟨?_, ?_, ?_⟩
  · simp only [World.log] at hlive
    simp [Apply, hgv, Accessor, hmeta, hnil, hlive, ObjectToTyped, hpatchT, hliveT,
      UpdaterApply, hengine, World.log, hw1, hwipe]
  · intro hk
    rcases wipeIfPod_ok _ _ _ _ _ _ _ _ _ _ _ hwipe with ⟨-, rfl, rfl⟩ | ⟨hk', -⟩
    · exact ⟨rfl, rfl⟩
    · exact absurd (by simpa [he.read hp] using hk') hk
  · intro hk
    rcases wipeIfPod_ok _ _ _ _ _ _ _ _ _ _ _ hwipe with ⟨hk', -⟩ | ⟨-, prepared, wp, hpp, hw, rfl⟩
    · exact absurd hk (by simpa [he.read hp] using hk')
    · obtain ⟨liveU, patchU, preparedV, hc⟩ :=
        preparedPatchTypedValue_ok_calls _ _ _ _ _ _ _ hpp
      exact ⟨prepared, liveU, patchU, preparedV, hw, by simp [World.log, hc]⟩

/-- Witness for C6: a ConfigMap-like patch that sets no field: the engine gives no
object, and `Apply` returns no object, the engine's ownership mapping and no error
after five calls. -/
theorem Apply_no_merged_object_witness :
    Apply sampleExternals (sampleManager fakeObjectConvertor) 0 1 ownedByOther "other" false
        (sampleWorld (configMap "" "")) =
      (⟨none, some (NewManaged [] [("other", 1)]), none⟩,
        { heap := (sampleWorld (configMap "" "")).heap,
          calls := [Call.Accessor 1 true,
            Call.ConvertToVersion 0 ⟨"apps", "v1"⟩ true,
            Call.ObjectToTyped 1 true,
            Call.ObjectToTyped 0 true,
            Call.UpdaterApply "apps/v1" "other" false true] }) :=
  (Apply_no_merged_object sampleExternals (sampleManager fakeObjectConvertor) 0 1
    ownedByOther "other" false (sampleWorld (configMap "" ""))
    { heap := (sampleWorld (configMap "" "")).heap,
      calls := [Call.Accessor 1 true, Call.ConvertToVersion 0 ⟨"apps", "v1"⟩ true] }
    { heap := (sampleWorld (configMap "" "")).heap,
      calls := [Call.Accessor 1 true,
        Call.ConvertToVersion 0 ⟨"apps", "v1"⟩ true,
        Call.ObjectToTyped 1 true,
        Call.ObjectToTyped 0 true,
        Call.UpdaterApply "apps/v1" "other" false true] }
    ⟨none, ""⟩ 0 ⟨"", ""⟩ ⟨"live-image", "Running"⟩ [] []
    (by decide) (by decide) rfl rfl rfl rfl rfl rfl rfl).1

/-- C7: the status-wipe step runs exactly for kind "Pod".  In every successful `Update`
(incoming object `newObj`) and every successful `Apply` (incoming object `patchObj`) on
allocated objects, the typed values given to the merge engine are the typed forms of the
declared-version conversions, and `WipePolicy` holds: for a kind other than "Pod" the
returned ownership mapping is exactly the one the merge engine returned and neither the
prepare-for-update hook nor the wipe operation is called; for kind "Pod" the returned
mapping is `WipeManagedFields(pre-call ownership, engine ownership, manager, live typed
value, prepared typed value)`, the prepared typed value being `preparedValue`. -/
theorem wipe_step_exactly_for_Pod (x : Externals C TV MF E)
    (f : structuredMergeManager C TV MF E) (liveObj obj : Ref) (managed : Managed MF T)
    (manager : String) (force : Bool) (w : World C)
    (hl : liveObj < w.heap.next) (ho : obj < w.heap.next) :
    (∀ res w', Update x f liveObj obj managed manager w = (res, w') → res.err = none →
      ∃ newV liveV newT liveT tv mfE wiped,
        convertValue f (w.heap.read obj) f.groupVersion = .ok newV ∧
        convertValue f (w.heap.read liveObj) f.groupVersion = .ok liveV ∧
        f.typeConverter.ObjectToTyped newV = .ok newT ∧
        f.typeConverter.ObjectToTyped liveV = .ok liveT ∧
        f.updater.Update liveT newT (x.GroupVersionString f.groupVersion) managed.Fields
          manager = .ok (tv, mfE) ∧
        res = ⟨some obj, some (NewManaged wiped managed.Times), none⟩ ∧
        WipePolicy x f liveObj obj managed manager liveT mfE wiped w w') ∧
    (∀ res w', Apply x f liveObj obj managed manager force w = (res, w') → res.err = none →
      ∃ liveV patchT liveT tv mfE wiped,
        convertValue f (w.heap.read liveObj) f.groupVersion = .ok liveV ∧
        f.typeConverter.ObjectToTyped (w.heap.read obj) = .ok patchT ∧
        f.typeConverter.ObjectToTyped liveV = .ok liveT ∧
        f.updater.Apply liveT patchT (x.GroupVersionString f.groupVersion) managed.Fields
          manager force = .ok (tv, mfE) ∧
        res.managed = some (NewManaged wiped managed.Times) ∧
        WipePolicy x f liveObj obj managed manager liveT mfE wiped w w') :=
  ⟨fun res w' h herr => Update_ok x f liveObj obj managed manager w w' res h herr hl ho,
   fun res w' h herr => Apply_ok x f liveObj obj managed manager force w w' res h herr hl ho⟩

/-- Witness for C7: a successful `Apply` of a Pod patch that sets `spec.image` and
`status.phase`: the returned ownership mapping is the wiped one. -/
theorem wipe_step_exactly_for_Pod_witness :
    ∃ liveT mfE wiped,
      (Apply sampleExternals (sampleManager copyingObjectConvertor) 0 1 sampleManaged "kubectl"
        false (sampleWorld (pod "test-image" "testing"))).1.managed =
          some (NewManaged wiped []) ∧
      WipePolicy sampleExternals (sampleManager copyingObjectConvertor) 0 1 sampleManaged
        "kubectl" liveT mfE wiped (sampleWorld (pod "test-image" "testing"))
        (Apply sampleExternals (sampleManager copyingObjectConvertor) 0 1 sampleManaged
          "kubectl" false (sampleWorld (pod "test-image" "testing"))).2 := by
  obtain ⟨_, _, liveT, _, mfE, wiped, -, -, -, -, hm, hpol⟩ :=
    (wipe_step_exactly_for_Pod sampleExternals (sampleManager copyingObjectConvertor) 0 1
      sampleManaged "kubectl" false (sampleWorld (pod "test-image" "testing"))
      (by decide) (by decide)).2 _ _ rfl (by decide)
  exact ⟨liveT, mfE, wiped, hm, hpol⟩

/-! ### Manager names -/

theorem truncateChars_isPrefix (max : Nat) (l : List Char) : truncateChars max l <+: l := by
  induction l generalizing max with
  | nil => simp [truncateChars]
  | cons c cs ih =>
    unfold truncateChars
    split
    · exact (List.prefix_cons_inj c).mpr (ih _)
    · exact List.nil_prefix

theorem truncateChars_utf8Len_le (max : Nat) (l : List Char) :
    String.utf8Len (truncateChars max l) ≤ max := by
  induction l generalizing max with
  | nil => simp [truncateChars]
  | cons c cs ih =>
    unfold truncateChars
    split
    · rename_i hc
      have := ih (max - c.utf8Size)
      simp only [String.utf8Len_cons]
      omega
    · simp

theorem truncateChars_longest (max : Nat) (l p : List Char) (hp : p <+: l)
    (hlen : String.utf8Len p ≤ max) : p <+: truncateChars max l := by
  induction l generalizing max p with
  | nil =>
    have : p = [] := List.prefix_nil.mp hp
    simp [this]
  | cons c cs ih =>
    cases p with
    | nil => exact List.nil_prefix
    | cons d ds =>
      have hd : d = c ∧ ds <+: cs := by simpa [List.cons_prefix_cons] using hp
      obtain ⟨rfl, hds⟩ := hd
      simp only [String.utf8Len_cons] at hlen
      unfold truncateChars
      have hc : d.utf8Size ≤ max := by omega
      rw [if_pos hc]
      exact (List.prefix_cons_inj d).mpr (ih _ ds hds (by omega))

theorem truncateChars_of_le (max : Nat) (l : List Char) (h : String.utf8Len l ≤ max) :
    truncateChars max l = l :=
  List.Sublist.antisymm (truncateChars_isPrefix max l).sublist
    (truncateChars_longest max l l (List.prefix_refl l) h).sublist

theorem takeWhile_not_slash (l : List Char) :
    ∃ rest, l = l.takeWhile (fun c => c != '/') ++ rest ∧
      '/' ∉ l.takeWhile (fun c => c != '/') ∧ (rest = [] ∨ rest.head? = some '/') := by
  refine ⟨l.dropWhile (fun c => c != '/'), (List.takeWhile_append_dropWhile _ l).symm, ?_, ?_⟩
  · intro h
    have := List.mem_takeWhile_imp h
    simp at this
  · induction l with
    | nil => simp
    | cons c cs ih =>
      by_cases hc : c = '/'
      · right; simp [List.dropWhile_cons, hc]
      · have hc' : (c != '/') = true := by simpa using hc
        rw [List.dropWhile_cons, if_pos hc']
        exact ih

/-- C9: manager-name resolution.  `fieldManagerOrUserAgent(m, prefixFromUserAgent(u))`
is `m` when `m` is not empty.  Otherwise it is the truncation of `seg`, the part of `u`
before its first `/` (all of `u` when `u` has no `/`): it is the longest run of leading
characters of `seg` that fits in the maximum length, it is `seg` itself when `seg` fits,
and it is never longer than the maximum (128 bytes). -/
theorem manager_name_resolution (m u : String) :
    (m ≠ "" → fieldManagerOrUserAgent m (prefixFromUserAgent u) = m) ∧
    (m = "" →
      ∃ seg rest, u.data = seg ++ rest ∧ '/' ∉ seg ∧ (rest = [] ∨ rest.head? = some '/') ∧
        ('/' ∉ u.data → seg = u.data) ∧
        (fieldManagerOrUserAgent m (prefixFromUserAgent u)).data <+: seg ∧
        (∀ p, p <+: seg → len ⟨p⟩ ≤ FieldManagerMaxLength →
          p <+: (fieldManagerOrUserAgent m (prefixFromUserAgent u)).data) ∧
        (len ⟨seg⟩ ≤ FieldManagerMaxLength →
          fieldManagerOrUserAgent m (prefixFromUserAgent u) = ⟨seg⟩) ∧
        len (fieldManagerOrUserAgent m (prefixFromUserAgent u)) ≤ FieldManagerMaxLength ∧
        FieldManagerMaxLength = 128) := by
  constructor
  · intro h
    simp [fieldManagerOrUserAgent, h]
  · intro h
    obtain ⟨rest, h1, h2, h3⟩ := takeWhile_not_slash u.data
    refine ⟨u.data.takeWhile (fun c => c != '/'), rest, h1, h2, h3, ?_, ?_, ?_, ?_, ?_, rfl⟩
    · intro hs
      apply List.takeWhile_eq_self_iff.mpr
      intro c hc
      have : c ≠ '/' := fun hc' => hs (hc' ▸ hc)
      simpa using this
    · simp only [fieldManagerOrUserAgent, h, ne_eq, not_true_eq_false, if_false,
        prefixFromUserAgent]
      exact truncateChars_isPrefix _ _
    · intro p hp hlen
      simp only [fieldManagerOrUserAgent, h, ne_eq, not_true_eq_false, if_false,
        prefixFromUserAgent]
      exact truncateChars_longest _ _ p hp (by simpa [len] using hlen)
    · intro hlen
      simp only [fieldManagerOrUserAgent, h, ne_eq, not_true_eq_false, if_false,
        prefixFromUserAgent]
      rw [truncateChars_of_le _ _ (by simpa [len] using hlen)]
    · simp only [fieldManagerOrUserAgent, h, ne_eq, not_true_eq_false, if_false,
        prefixFromUserAgent, len, String.utf8ByteSize_mk]
      exact truncateChars_utf8Len_le _ _

/-- Witness for C9: the cases of `TestManagerOrUserAgent`. -/
theorem manager_name_resolution_witness :
    fieldManagerOrUserAgent "manager" (prefixFromUserAgent "userAgent") = "manager" ∧
      len (fieldManagerOrUserAgent "" (prefixFromUserAgent
        "🍔🍔🍔🍔🍔🍔🍔🍔🍔🍔🍔🍔🍔🍔🍔🍔🍔🍔🍔🍔🍔🍔🍔🍔🍔🍔🍔🍔🍔🍔🍔🍔🍔🍔🍔🍔🍔🍔🍔🍔🍔🍔🍔🍔🍔🍔🍔🍔🍔🍔🍔🍔🍔🍔🍔🍔🍔🍔🍔🍔")) ≤
        FieldManagerMaxLength ∧
      fieldManagerOrUserAgent "" (prefixFromUserAgent
        "🍔🍔🍔🍔🍔🍔🍔🍔🍔🍔🍔🍔🍔🍔🍔🍔🍔🍔🍔🍔🍔🍔🍔🍔🍔🍔🍔🍔🍔🍔🍔🍔🍔🍔🍔🍔🍔🍔🍔🍔🍔🍔🍔🍔🍔🍔🍔🍔🍔🍔🍔🍔🍔🍔🍔🍔🍔🍔🍔🍔") =
        "🍔🍔🍔🍔🍔🍔🍔🍔🍔🍔🍔🍔🍔🍔🍔🍔🍔🍔🍔🍔🍔🍔🍔🍔🍔🍔🍔🍔🍔🍔🍔🍔" ∧
      fieldManagerOrUserAgent "" (prefixFromUserAgent
        "Mozilla/5.0 (X11; Linux x86_64) AppleWebKit/537.36 (KHTML, like Gecko) Chrome/72.0.3626.121 Safari/537.36") =
        "Mozilla" ∧
      fieldManagerOrUserAgent "" (prefixFromUserAgent "userAgent") = "userAgent" := by
  refine ⟨(manager_name_resolution "manager" "userAgent").1 (by decide), ?_, by decide,
    by decide, by decide⟩
  obtain ⟨_, _, -, -, -, -, -, -, -, h, -⟩ := (manager_name_resolution ""
    "🍔🍔🍔🍔🍔🍔🍔🍔🍔🍔🍔🍔🍔🍔🍔🍔🍔🍔🍔🍔🍔🍔🍔🍔🍔🍔🍔🍔🍔🍔🍔🍔🍔🍔🍔🍔🍔🍔🍔🍔🍔🍔🍔🍔🍔🍔🍔🍔🍔🍔🍔🍔🍔🍔🍔🍔🍔🍔🍔🍔").2 rfl
  exact h

/-- C10: legacy-field precedence.  For an object whose stored legacy manager is `s` and
a field argument `f`, `validFieldManager` returns `s` (and no error) when `f` is empty
and `s` is within the maximum length; the empty name and an error when `f` is empty and
`s` exceeds the maximum length; `f` when `s` is empty or equal to `f`; and the empty
name and a validation error when `s` and `f` are both non-empty and differ. -/
theorem legacy_field_precedence (obj : ObjectMeta) (f : String) :
    (f = "" → len obj.FieldManager ≤ FieldManagerMaxLength →
      validFieldManager obj f = (obj.FieldManager, none)) ∧
    (f = "" → len obj.FieldManager > FieldManagerMaxLength →
      (validFieldManager obj f).1 = "" ∧ (validFieldManager obj f).2 ≠ none) ∧
    (obj.FieldManager = "" ∨ obj.FieldManager = f → (validFieldManager obj f).1 = f) ∧
    (obj.FieldManager ≠ "" → f ≠ "" → obj.FieldManager ≠ f →
      (validFieldManager obj f).1 = "" ∧
      (validFieldManager obj f).2 = some (.mismatch obj.FieldManager f)) := by
  refine ⟨?_, ?_, ?_, ?_⟩
  · intro hf hlen
    simp [validFieldManager, hf, Nat.not_lt.mpr hlen]
  · intro hf hlen
    simp [validFieldManager, hf, hlen]
  · intro hs
    by_cases hf : f = ""
    · have hs' : obj.FieldManager = "" := by
        rcases hs with hs | hs
        · exact hs
        · rw [hs, hf]
      have hl : ¬ FieldManagerMaxLength < len "" := by decide
      simp [validFieldManager, hf, hl, hs']
    · rcases hs with hs | hs <;> simp [validFieldManager, hf, hs]
  · intro hs hf hne
    simp [validFieldManager, hf, hs, hne]

set_option maxRecDepth 8192 in
/-- Witness for C10: the cases of `TestValidFieldManager` and `TestManagerValidation`. -/
theorem legacy_field_precedence_witness :
    validFieldManager ⟨none, "manager"⟩ "" = ("manager", none) ∧
      ((validFieldManager ⟨none, String.mk (List.replicate 129 'f')⟩ "").1 = "" ∧
        (validFieldManager ⟨none, String.mk (List.replicate 129 'f')⟩ "").2 ≠ none) ∧
      (validFieldManager ⟨none, ""⟩ "field").1 = "field" ∧
      (validFieldManager ⟨none, "manager"⟩ "manager").1 = "manager" ∧
      ((validFieldManager ⟨none, "manager"⟩ "field").1 = "" ∧
        (validFieldManager ⟨none, "manager"⟩ "field").2 = some (.mismatch "manager" "field")) :=
  ⟨(legacy_field_precedence ⟨none, "manager"⟩ "").1 rfl (by decide),
    (legacy_field_precedence ⟨none, String.mk (List.replicate 129 'f')⟩ "").2.1 rfl (by decide),
    (legacy_field_precedence ⟨none, ""⟩ "field").2.2.1 (Or.inl rfl),
    (legacy_field_precedence ⟨none, "manager"⟩ "manager").2.2.1 (Or.inr rfl),
    (legacy_field_precedence ⟨none, "manager"⟩ "field").2.2.2 (by decide) (by decide)
      (by decide)⟩

/-! ### The API version handed to the merge engine -/

@[simp] theorem engineVersion_Accessor (obj : Ref) (ok : Bool) :
    (Call.Accessor obj ok).engineVersion = none := rfl

@[simp] theorem engineVersion_ConvertToVersion (obj : Ref) (gv : GroupVersion) (ok : Bool) :
    (Call.ConvertToVersion obj gv ok).engineVersion = none := rfl

@[simp] theorem engineVersion_ObjectToTyped (obj : Ref) (ok : Bool) :
    (Call.ObjectToTyped obj ok).engineVersion = none := rfl

@[simp] theorem engineVersion_TypedToObject (ok : Bool) :
    (Call.TypedToObject ok).engineVersion = none := rfl

@[simp] theorem engineVersion_Default (obj : Ref) :
    (Call.Default obj).engineVersion = none := rfl

@[simp] theorem engineVersion_PrepareForUpdate (obj old : Ref) :
    (Call.PrepareForUpdate obj old).engineVersion = none := rfl

@[simp] theorem engineVersion_UpdaterUpdate (v m : String) (ok : Bool) :
    (Call.UpdaterUpdate v m ok).engineVersion = some v := rfl

@[simp] theorem engineVersion_UpdaterApply (v m : String) (force ok : Bool) :
    (Call.UpdaterApply v m force ok).engineVersion = some v := rfl

@[simp] theorem engineVersion_WipeManagedFields (m : String) (ok : Bool) :
    (Call.WipeManagedFields m ok).engineVersion = none := rfl

theorem preparedPatchTypedValue_engineVersion (x : Externals C TV MF E)
    (f : structuredMergeManager C TV MF E) (liveObj patchObj : Ref) (w : World C) :
    ∃ l, (preparedPatchTypedValue x f liveObj patchObj w).2.calls = w.calls ++ l ∧
      l.filterMap Call.engineVersion = [] := by
  unfold preparedPatchTypedValue
  repeat' split
  all_goals
    simp_all [pair_eq_iff, toVersioned_calls, toUnversioned_calls, ObjectToTyped_calls,
      PrepareForUpdate_calls]

theorem wipeIfPod_engineVersion (x : Externals C TV MF E)
    (f : structuredMergeManager C TV MF E) (liveObj obj : Ref)
    (liveManagedFields managedFields : MF) (manager : String) (liveObjTyped : TV)
    (w : World C) :
    ∃ l, (wipeIfPod x f liveObj obj liveManagedFields managedFields manager liveObjTyped w).2.calls
        = w.calls ++ l ∧
      l.filterMap Call.engineVersion = [] := by
  unfold wipeIfPod
  split
  · obtain ⟨l, hl, hv⟩ := preparedPatchTypedValue_engineVersion x f liveObj obj w
    split
    · refine ⟨l, ?_, hv⟩
      simp_all [pair_eq_iff]
    · split
      · refine ⟨l ++ [Call.WipeManagedFields manager false], ?_, ?_⟩ <;>
          simp_all [pair_eq_iff, WipeManagedFields_calls]
      · refine ⟨l ++ [Call.WipeManagedFields manager true], ?_, ?_⟩ <;>
          simp_all [pair_eq_iff, WipeManagedFields_calls]
  · exact ⟨[], by simp⟩

theorem Update_engineVersion (x : Externals C TV MF E) (f : structuredMergeManager C TV MF E)
    (liveObj newObj : Ref) (managed : Managed MF T) (manager : String) (w : World C) :
    ∃ l, (Update x f liveObj newObj managed manager w).2.calls = w.calls ++ l ∧
      (l.filterMap Call.engineVersion = [] ∨
        l.filterMap Call.engineVersion = [x.GroupVersionString f.groupVersion]) ∧
      ((Update x f liveObj newObj managed manager w).1.err = none →
        l.filterMap Call.engineVersion = [x.GroupVersionString f.groupVersion]) := by
  unfold Update
  split
  · simp_all [pair_eq_iff, toVersioned_calls, Result.fail]
  split
  · simp_all [pair_eq_iff, toVersioned_calls, Result.fail]
  split
  · simp_all [pair_eq_iff, toVersioned_calls, ObjectToTyped_calls, Result.fail]
  split
  · simp_all [pair_eq_iff, toVersioned_calls, ObjectToTyped_calls, Result.fail]
  rename_i liveObjTyped w4 h4
  split
  · simp_all [pair_eq_iff, toVersioned_calls, ObjectToTyped_calls, UpdaterUpdate_calls,
      Result.fail]
  rename_i tv managedFields w5 h5
  obtain ⟨l, hl, hv⟩ :=
    wipeIfPod_engineVersion x f liveObj newObj managed.Fields managedFields manager
      liveObjTyped w5
  split
  · refine ⟨w5.calls.drop w.calls.length ++ l, ?_, ?_, ?_⟩ <;>
      simp_all [pair_eq_iff, toVersioned_calls, ObjectToTyped_calls, UpdaterUpdate_calls,
        Result.fail]
  · refine ⟨w5.calls.drop w.calls.length ++ l, ?_, ?_, ?_⟩ <;>
      simp_all [pair_eq_iff, toVersioned_calls, ObjectToTyped_calls, UpdaterUpdate_calls,
        Result.fail]

theorem Apply_engineVersion (x : Externals C TV MF E) (f : structuredMergeManager C TV MF E)
    (liveObj patchObj : Ref) (managed : Managed MF T) (manager : String) (force : Bool)
    (w : World C) :
    ∃ l, (Apply x f liveObj patchObj managed manager force w).2.calls = w.calls ++ l ∧
      (l.filterMap Call.engineVersion = [] ∨
        l.filterMap Call.engineVersion = [x.GroupVersionString f.groupVersion]) ∧
      ((Apply x f liveObj patchObj managed manager force w).1.err = none →
        l.filterMap Call.engineVersion = [x.GroupVersionString f.groupVersion]) := by
  unfold Apply
  split
  · exact ⟨[], by simp, Or.inl rfl, by simp [Result.fail]⟩
  split
  · simp_all [pair_eq_iff, Accessor_calls, Result.fail]
  split
  · simp_all [pair_eq_iff, Accessor_calls, Result.fail]
  split
  · simp_all [pair_eq_iff, Accessor_calls, toVersioned_calls, Result.fail]
  split
  · simp_all [pair_eq_iff, Accessor_calls, toVersioned_calls, ObjectToTyped_calls,
      Result.fail]
  split
  · simp_all [pair_eq_iff, Accessor_calls, toVersioned_calls, ObjectToTyped_calls,
      Result.fail]
  rename_i liveObjTyped w4 h4
  split
  · simp_all [pair_eq_iff, Accessor_calls, toVersioned_calls, ObjectToTyped_calls,
      UpdaterApply_calls, Result.fail]
  rename_i tv managedFields w5 h5
  obtain ⟨l, hl, hv⟩ :=
    wipeIfPod_engineVersion x f liveObj patchObj managed.Fields managedFields manager
      liveObjTyped w5
  split
  · refine ⟨w5.calls.drop w.calls.length ++ l, ?_, ?_, ?_⟩ <;>
      simp_all [pair_eq_iff, Accessor_calls, toVersioned_calls, ObjectToTyped_calls,
        UpdaterApply_calls, Result.fail]
  rename_i mf' w6 h6
  have h6c : w6.calls = w.calls ++ (w5.calls.drop w.calls.length ++ l) := by
    simp_all [pair_eq_iff, Accessor_calls, toVersioned_calls, ObjectToTyped_calls,
      UpdaterApply_calls]
  have h6v : (w5.calls.drop w.calls.length ++ l).filterMap Call.engineVersion =
      [x.GroupVersionString f.groupVersion] := by
    simp_all [pair_eq_iff, Accessor_calls, toVersioned_calls, ObjectToTyped_calls,
      UpdaterApply_calls]
  generalize w5.calls.drop w.calls.length ++ l = l6 at h6c h6v
  clear * - h6c h6v
  split
  · exact ⟨l6, h6c, Or.inr h6v, fun _ => h6v⟩
  split
  · refine ⟨l6 ++ [Call.TypedToObject false], ?_, ?_, ?_⟩ <;>
      simp_all [pair_eq_iff, TypedToObject_calls]
  rename_i newObj w7 h7
  split
  · refine ⟨l6 ++ [Call.TypedToObject true, Call.ConvertToVersion newObj f.groupVersion false],
      ?_, ?_, ?_⟩ <;>
      simp_all [pair_eq_iff, TypedToObject_calls, toVersioned_calls]
  rename_i newObjVersioned w8 h8
  split
  · refine ⟨l6 ++ [Call.TypedToObject true, Call.ConvertToVersion newObj f.groupVersion true,
      Call.Default newObjVersioned, Call.ConvertToVersion newObjVersioned f.hubVersion false],
      ?_, ?_, ?_⟩ <;>
      simp_all [pair_eq_iff, TypedToObject_calls, toVersioned_calls, toUnversioned_calls,
        Default_calls]
  · refine ⟨l6 ++ [Call.TypedToObject true, Call.ConvertToVersion newObj f.groupVersion true,
      Call.Default newObjVersioned, Call.ConvertToVersion newObjVersioned f.hubVersion true],
      ?_, ?_, ?_⟩ <;>
      simp_all [pair_eq_iff, TypedToObject_calls, toVersioned_calls, toUnversioned_calls,
        Default_calls]

/-- C11 (the claim fails as stated): a manager whose declared version is `apps/v1` and
whose hub version is `apps/__internal`.  `Update` and `Apply` both succeed and reach the
merge engine once; the version the engine is given is "apps/v1", not the hub version
"apps/__internal", and it is "apps/v1" that the engine records in the returned
ownership mapping. -/
theorem engine_version_is_not_hub :
    hubManager.groupVersion ≠ hubManager.hubVersion ∧
      sampleExternals.GroupVersionString hubManager.hubVersion = "apps/__internal" ∧
      (Update sampleExternals hubManager 0 1 sampleManaged "kubectl"
        (sampleWorld (pod "test-image" "testing"))).1.err = none ∧
      (Update sampleExternals hubManager 0 1 sampleManaged "kubectl"
        (sampleWorld (pod "test-image" "testing"))).2.calls.filterMap Call.engineVersion =
          ["apps/v1"] ∧
      ¬ (∀ v ∈ (Update sampleExternals hubManager 0 1 sampleManaged "kubectl"
          (sampleWorld (pod "test-image" "testing"))).2.calls.filterMap Call.engineVersion,
        v = sampleExternals.GroupVersionString hubManager.hubVersion) ∧
      (Update sampleExternals hubManager 0 1 sampleManaged "kubectl"
        (sampleWorld (pod "test-image" "testing"))).1.managed.map (fun m => m.Fields) =
          some [("kubectl", ["apps/v1", "spec.image"])] ∧
      (Apply sampleExternals hubManager 0 1 sampleManaged "kubectl" false
        (sampleWorld (pod "test-image" "testing"))).1.err = none ∧
      (Apply sampleExternals hubManager 0 1 sampleManaged "kubectl" false
        (sampleWorld (pod "test-image" "testing"))).2.calls.filterMap Call.engineVersion =
          ["apps/v1"] ∧
      ¬ (∀ v ∈ (Apply sampleExternals hubManager 0 1 sampleManaged "kubectl" false
          (sampleWorld (pod "test-image" "testing"))).2.calls.filterMap Call.engineVersion,
        v = sampleExternals.GroupVersionString hubManager.hubVersion) ∧
      (Apply sampleExternals hubManager 0 1 sampleManaged "kubectl" false
        (sampleWorld (pod "test-image" "testing"))).1.managed.map (fun m => m.Fields) =
          some [("kubectl", ["apps/v1", "spec.image"])] := by
  decide

/-- C11 (amended): in every `Update` and every `Apply` call, for every configuration of
declared and hub version, the merge engine is called at most once and the API version
it is given is the string of the manager's declared group-version
(`f.groupVersion.String()`); a call that succeeds has reached the engine.  Whenever the
hub version prints differently, no engine call is given the hub version. -/
theorem engine_version_is_declared (x : Externals C TV MF E)
    (f : structuredMergeManager C TV MF E) (liveObj obj : Ref) (managed : Managed MF T)
    (manager : String) (force : Bool) (w : World C) :
    (∃ l, (Update x f liveObj obj managed manager w).2.calls = w.calls ++ l ∧
      (l.filterMap Call.engineVersion = [] ∨
        l.filterMap Call.engineVersion = [x.GroupVersionString f.groupVersion]) ∧
      ((Update x f liveObj obj managed manager w).1.err = none →
        l.filterMap Call.engineVersion = [x.GroupVersionString f.groupVersion]) ∧
      (x.GroupVersionString f.groupVersion ≠ x.GroupVersionString f.hubVersion →
        ∀ v ∈ l.filterMap Call.engineVersion, v ≠ x.GroupVersionString f.hubVersion)) ∧
    (∃ l, (Apply x f liveObj obj managed manager force w).2.calls = w.calls ++ l ∧
      (l.filterMap Call.engineVersion = [] ∨
        l.filterMap Call.engineVersion = [x.GroupVersionString f.groupVersion]) ∧
      ((Apply x f liveObj obj managed manager force w).1.err = none →
        l.filterMap Call.engineVersion = [x.GroupVersionString f.groupVersion]) ∧
      (x.GroupVersionString f.groupVersion ≠ x.GroupVersionString f.hubVersion →
        ∀ v ∈ l.filterMap Call.engineVersion, v ≠ x.GroupVersionString f.hubVersion)) := by
  constructor
  · obtain ⟨l, hl, hd, hs⟩ := Update_engineVersion x f liveObj obj managed manager w
    refine ⟨l, hl, hd, hs, ?_⟩
    intro hne v hv
    rcases hd with hd | hd
    · rw [hd] at hv; simp at hv
    · rw [hd] at hv
      simp at hv
      rw [hv]
      exact hne
  · obtain ⟨l, hl, hd, hs⟩ := Apply_engineVersion x f liveObj obj managed manager force w
    refine ⟨l, hl, hd, hs, ?_⟩
    intro hne v hv
    rcases hd with hd | hd
    · rw [hd] at hv; simp at hv
    · rw [hd] at hv
      simp at hv
      rw [hv]
      exact hne

/-- Witness for C11 (amended): a successful `Update` of a ConfigMap-like object and a
successful `Apply` of a Pod by the manager with declared version `apps/v1` and hub
version `apps/__internal`: the engine is given "apps/v1". -/
theorem engine_version_is_declared_witness :
    (∃ l, (Update sampleExternals hubManager 0 1 ownedByOther "kubectl"
        (sampleWorld (configMap "test-image" ""))).2.calls =
          (sampleWorld (configMap "test-image" "")).calls ++ l ∧
      l.filterMap Call.engineVersion = ["apps/v1"] ∧
      ∀ v ∈ l.filterMap Call.engineVersion, v ≠ "apps/__internal") ∧
    (∃ l, (Apply sampleExternals hubManager 0 1 sampleManaged "kubectl" true
        (sampleWorld (pod "test-image" ""))).2.calls =
          (sampleWorld (pod "test-image" "")).calls ++ l ∧
      l.filterMap Call.engineVersion = ["apps/v1"] ∧
      ∀ v ∈ l.filterMap Call.engineVersion, v ≠ "apps/__internal") := by
  constructor
  · obtain ⟨l, hl, -, hs, hh⟩ := (engine_version_is_declared sampleExternals hubManager 0 1
      ownedByOther "kubectl" false (sampleWorld (configMap "test-image" ""))).1
    exact ⟨l, hl, hs (by decide), hh (by decide)⟩
  · obtain ⟨l, hl, -, hs, hh⟩ := (engine_version_is_declared sampleExternals hubManager 0 1
      sampleManaged "kubectl" true (sampleWorld (pod "test-image" ""))).2
    exact ⟨l, hl, hs (by decide), hh (by decide)⟩

end FieldManager
